import Mathlib

/-!
Verification development for the request-path core of the Dynamic-Form-System
repository: the HTTP read-through cache middleware (app/services/api/gateway.py),
the cache store wrapper (app/services/cache/cache.py) and the schema-driven
validation engine (app/services/api/validators.py).

The embedding is shallow and executable:

  * JSON documents are the inductive type Json below.  Numeric JSON values are
    modelled as integers; float formatting or parsing (fractions, exponents,
    NaN or Infinity literals, digit underscores) is outside the model, as is
    the ensure_ascii escaping of characters above 0x7f used by json.dumps in
    cache.py, and the combination of surrogate pairs in \uXXXX string escapes
    (a Lean Char cannot hold a lone surrogate).
  * Python's json.loads is the fuel-indexed recursive-descent reader pvJson /
    plJson / pmJson; json.dumps with its two separator conventions (the
    default separators used by cache_set, and the compact separators used by
    fastapi's JSONResponse) is dumpsV.
  * The redis store reached through redis.from_url is a finite map from keys
    to (string value, expiry time) with an explicit clock, plus the two
    failure modes of cache.py: the module-level handle being None (connection
    failed at import) and the handle raising inside an operation.  Both are
    constructors of Backend.
  * HTTP responses are (status code, body bytes); header propagation is
    framework plumbing outside the model.
  * Python payload values seen by validate_form_data are PyVal (None, bool,
    int, str); container payload values are outside the modelled universe.
-/

set_option linter.all false

/-! ## Character-list utilities (Python string primitives) -/

/-- Python list and string containment helper: pre is an initial run of s
(str.startswith on the character level). -/
def leadsCh : List Char → List Char → Bool
  | [], _ => true
  | _ :: _, [] => false
  | c :: ps, d :: ss => c = d && leadsCh ps ss

/-- str.startswith. -/
def leadsWith (pre s : String) : Bool := leadsCh pre.data s.data

/-- Python substring containment on character lists (the in operator). -/
def occursCh (needle : List Char) : List Char → Bool
  | [] => leadsCh needle []
  | c :: hay => leadsCh needle (c :: hay) || occursCh needle hay

/-- Python substring containment: needle in s. -/
def occursIn (needle s : String) : Bool := occursCh needle.data s.data

/-- Decimal digit test. -/
def isDig (c : Char) : Bool := 48 ≤ c.toNat && c.toNat ≤ 57

/-- Numeric value of a decimal digit character. -/
def digVal (c : Char) : Nat := c.toNat - 48

/-- Decimal digit character for a value below ten. -/
def digChar (n : Nat) : Char := Char.ofNat (48 + n)

/-- Decimal digits of n, most significant first, computed with a fuel
argument so that the definition is structural (fuel n + 1 always suffices
because a number has at most n + 1 digits). -/
def natCharsGo : Nat → Nat → List Char
  | 0, _ => []
  | f + 1, n => if n < 10 then [digChar n] else natCharsGo f (n / 10) ++ [digChar (n % 10)]

/-- Decimal digits of a natural number, no leading zeros (Python repr). -/
def natChars (n : Nat) : List Char := natCharsGo (n + 1) n

/-- Python repr of an integer, as characters. -/
def intChars (i : Int) : List Char :=
  if i < 0 then '-' :: natChars (-i).toNat else natChars i.toNat

/-- Python repr of an integer. -/
def intRepr (i : Int) : String := String.mk (intChars i)

/-! ## JSON documents

Json / JsonList / JsonMembers form a mutual inductive so that every
function over documents is plain structural recursion (kernel-reducible). -/

mutual
inductive Json where
  | null : Json
  | bool (b : Bool) : Json
  | num (n : Int) : Json
  | str (s : String) : Json
  | arr (xs : JsonList) : Json
  | obj (kvs : JsonMembers) : Json

inductive JsonList where
  | nil : JsonList
  | cons (hd : Json) (tl : JsonList) : JsonList

inductive JsonMembers where
  | nil : JsonMembers
  | cons (k : String) (v : Json) (tl : JsonMembers) : JsonMembers
end

/-- Whether a JSON array node is the empty array. -/
def JsonList.isNil : JsonList → Bool
  | .nil => true
  | .cons _ _ => false

/-- Whether a JSON object node has no members. -/
def JsonMembers.isNil : JsonMembers → Bool
  | .nil => true
  | .cons _ _ _ => false

/-- Whether the key k occurs among the members. -/
def keyMem (k : String) : JsonMembers → Bool
  | .nil => false
  | .cons k0 _ tl => k0 = k || keyMem k tl

/-- Python dict item assignment d[k] = v: replace the value at the first
occurrence of the key, keeping its position, else append. -/
def insertKV : JsonMembers → String → Json → JsonMembers
  | .nil, k, v => .cons k v .nil
  | .cons k0 v0 tl, k, v =>
    if k0 = k then .cons k0 v tl else .cons k0 v0 (insertKV tl k v)

/-- Fold a parsed member sequence into a Python dict (duplicate keys: the
last value wins at the first occurrence's position). -/
def memFold : JsonMembers → JsonMembers → JsonMembers
  | acc, .nil => acc
  | acc, .cons k v tl => memFold (insertKV acc k v) tl

/-- Concatenation of member sequences. -/
def mAppend : JsonMembers → JsonMembers → JsonMembers
  | .nil, ms => ms
  | .cons k v tl, ms => .cons k v (mAppend tl ms)

mutual
/-- Python truthiness of a decoded JSON document (what an if statement sees):
None, False, 0, the empty string, the empty list and the empty dict are
falsy, everything else truthy. -/
def truthy : Json → Bool
  | .null => false
  | .bool b => b
  | .num n => if n = 0 then false else true
  | .str s => if s = "" then false else true
  | .arr xs => !xs.isNil
  | .obj kvs => !kvs.isNil
end

mutual
/-- A document is well formed when every object node has pairwise distinct
keys; every document decoded from a Python dict has this shape. -/
def jsonWF : Json → Bool
  | .null => true
  | .bool _ => true
  | .num _ => true
  | .str _ => true
  | .arr xs => jsonWFL xs
  | .obj kvs => jsonWFM kvs

def jsonWFL : JsonList → Bool
  | .nil => true
  | .cons x tl => jsonWF x && jsonWFL tl

def jsonWFM : JsonMembers → Bool
  | .nil => true
  | .cons k v tl => !(keyMem k tl) && jsonWF v && jsonWFM tl
end

/-! ## json.dumps -/

/-- Hex digit character, matching Python's lowercase hex escape forms. -/
def hexDigChar (n : Nat) : Char := if n < 10 then digChar n else Char.ofNat (87 + n)

/-- The escape json.dumps applies to one character with ensure_ascii off:
backslash, double quote and the control characters below 0x20 are escaped
(short forms for backspace, formfeed, newline, carriage return, tab; a
four-digit hex escape for the rest), everything else is kept verbatim. -/
def escChar (c : Char) : List Char :=
  if c = '"' then ['\\', '"']
  else if c = '\\' then ['\\', '\\']
  else if c = '\n' then ['\\', 'n']
  else if c = '\r' then ['\\', 'r']
  else if c = '\t' then ['\\', 't']
  else if c = '\x08' then ['\\', 'b']
  else if c = '\x0c' then ['\\', 'f']
  else if c.toNat < 32 then
    ['\\', 'u', '0', '0', hexDigChar (c.toNat / 16), hexDigChar (c.toNat % 16)]
  else [c]

/-- Escape a whole string body. -/
def escList : List Char → List Char
  | [] => []
  | c :: cs => escChar c ++ escList cs

mutual
/-- json.dumps of a document as a character list, parameterised by the item
separator and the key separator (cache_set uses the defaults, JSONResponse
the compact forms). -/
def dumpsV (isep ksep : List Char) : Json → List Char
  | .null => "null".data
  | .bool true => "true".data
  | .bool false => "false".data
  | .num i => intChars i
  | .str s => '"' :: (escList s.data ++ ['"'])
  | .arr .nil => ['[', ']']
  | .arr (.cons x tl) => '[' :: (dumpsL isep ksep (.cons x tl) ++ [']'])
  | .obj .nil => ['\x7b', '\x7d']
  | .obj (.cons k v tl) => '\x7b' :: (dumpsM isep ksep (.cons k v tl) ++ ['\x7d'])

def dumpsL (isep ksep : List Char) : JsonList → List Char
  | .nil => []
  | .cons x .nil => dumpsV isep ksep x
  | .cons x (.cons y tl) => dumpsV isep ksep x ++ isep ++ dumpsL isep ksep (.cons y tl)

def dumpsM (isep ksep : List Char) : JsonMembers → List Char
  | .nil => []
  | .cons k v .nil => ('"' :: (escList k.data ++ ['"'])) ++ ksep ++ dumpsV isep ksep v
  | .cons k v (.cons k2 v2 tl) =>
    ('"' :: (escList k.data ++ ['"'])) ++ ksep ++ dumpsV isep ksep v ++ isep ++
      dumpsM isep ksep (.cons k2 v2 tl)
end

/-- json.dumps(value) as called by cache_set: default separators. -/
def json_dumps_default (v : Json) : String := String.mk (dumpsV [',', ' '] [':', ' '] v)

/-- json.dumps as performed by fastapi's JSONResponse: compact separators. -/
def json_dumps_compact (v : Json) : String := String.mk (dumpsV [','] [':'] v)

/-! ## json.loads -/

/-- JSON whitespace (space, tab, newline, carriage return). -/
def isJWs (c : Char) : Bool := c = ' ' || c = '\t' || c = '\n' || c = '\r'

/-- Skip JSON whitespace. -/
def skipWs : List Char → List Char
  | [] => []
  | c :: cs => if isJWs c then skipWs cs else c :: cs

/-- Value of a hex digit character, if it is one. -/
def hexVal (c : Char) : Option Nat :=
  if isDig c then some (c.toNat - 48)
  else if 97 ≤ c.toNat && c.toNat ≤ 102 then some (c.toNat - 87)
  else if 65 ≤ c.toNat && c.toNat ≤ 70 then some (c.toNat - 55)
  else none

/-- Body of a JSON string literal after the opening quote, strict mode:
unescaped control characters are rejected, the listed escapes are decoded,
and the closing quote is consumed. -/
def parseStrChars : List Char → Option (List Char × List Char)
  | [] => none
  | '"' :: r => some ([], r)
  | '\\' :: r =>
    match r with
    | '"' :: r2 =>
      match parseStrChars r2 with
      | some (cs, r3) => some ('"' :: cs, r3)
      | none => none
    | '\\' :: r2 =>
      match parseStrChars r2 with
      | some (cs, r3) => some ('\\' :: cs, r3)
      | none => none
    | '/' :: r2 =>
      match parseStrChars r2 with
      | some (cs, r3) => some ('/' :: cs, r3)
      | none => none
    | 'b' :: r2 =>
      match parseStrChars r2 with
      | some (cs, r3) => some ('\x08' :: cs, r3)
      | none => none
    | 'f' :: r2 =>
      match parseStrChars r2 with
      | some (cs, r3) => some ('\x0c' :: cs, r3)
      | none => none
    | 'n' :: r2 =>
      match parseStrChars r2 with
      | some (cs, r3) => some ('\n' :: cs, r3)
      | none => none
    | 'r' :: r2 =>
      match parseStrChars r2 with
      | some (cs, r3) => some ('\r' :: cs, r3)
      | none => none
    | 't' :: r2 =>
      match parseStrChars r2 with
      | some (cs, r3) => some ('\t' :: cs, r3)
      | none => none
    | 'u' :: h1 :: h2 :: h3 :: h4 :: r2 =>
      match hexVal h1, hexVal h2, hexVal h3, hexVal h4 with
      | some a, some b, some c, some d =>
        match parseStrChars r2 with
        | some (cs, r3) => some (Char.ofNat (((a * 16 + b) * 16 + c) * 16 + d) :: cs, r3)
        | none => none
      | _, _, _, _ => none
    | _ => none
  | c :: r =>
    if c.toNat < 32 then none
    else
      match parseStrChars r with
      | some (cs, r3) => some (c :: cs, r3)
      | none => none

/-- Run of decimal digits folded into acc, left to right. -/
def munchDigits : List Char → Nat → Nat × List Char
  | [], acc => (acc, [])
  | c :: cs, acc => if isDig c then munchDigits cs (acc * 10 + digVal c) else (acc, c :: cs)

/-- Unsigned JSON integer: a single zero, or a nonzero leading digit
followed by any digits (leading zeros are a decode error in Python). -/
def parseNatNum : List Char → Option (Nat × List Char)
  | [] => none
  | '0' :: r =>
    match r with
    | [] => some (0, [])
    | c :: _ => if isDig c then none else some (0, r)
  | c :: r => if isDig c then some (munchDigits r (digVal c)) else none

mutual
/-- json.loads value reader (scan_once): fuel-indexed recursive descent.
Leading whitespace is skipped, then the value is dispatched on its first
character; fractional or exponent number forms are outside the model and
fail like any other unreadable input. -/
def pvJson : Nat → List Char → Option (Json × List Char)
  | 0, _ => none
  | fuel + 1, cs =>
    match skipWs cs with
    | 'n' :: 'u' :: 'l' :: 'l' :: r => some (.null, r)
    | 't' :: 'r' :: 'u' :: 'e' :: r => some (.bool true, r)
    | 'f' :: 'a' :: 'l' :: 's' :: 'e' :: r => some (.bool false, r)
    | '"' :: r =>
      match parseStrChars r with
      | some (cs2, r2) => some (.str (String.mk cs2), r2)
      | none => none
    | '[' :: r =>
      match skipWs r with
      | ']' :: r2 => some (.arr .nil, r2)
      | r2 =>
        match plJson fuel r2 with
        | some (xs, r3) => some (.arr xs, r3)
        | none => none
    | '\x7b' :: r =>
      match skipWs r with
      | '\x7d' :: r2 => some (.obj .nil, r2)
      | r2 =>
        match pmJson fuel r2 with
        | some (ms, r3) => some (.obj (memFold .nil ms), r3)
        | none => none
    | '-' :: r =>
      match parseNatNum r with
      | some (n, r2) => some (.num (-(n : Int)), r2)
      | none => none
    | c :: r =>
      if isDig c then
        match parseNatNum (c :: r) with
        | some (n, r2) => some (.num (n : Int), r2)
        | none => none
      else none
    | [] => none

/-- Non-empty bracket body of a JSON array: values separated by commas
(whitespace tolerated around separators), closed by a bracket. -/
def plJson : Nat → List Char → Option (JsonList × List Char)
  | 0, _ => none
  | fuel + 1, cs =>
    match pvJson fuel cs with
    | some (v, r) =>
      match skipWs r with
      | ',' :: r2 =>
        match plJson fuel (skipWs r2) with
        | some (vs, r3) => some (.cons v vs, r3)
        | none => none
      | ']' :: r2 => some (.cons v .nil, r2)
      | _ => none
    | none => none

/-- Non-empty brace body of a JSON object: quoted key, colon, value,
then a comma and further members or the closing brace. -/
def pmJson : Nat → List Char → Option (JsonMembers × List Char)
  | 0, _ => none
  | fuel + 1, cs =>
    match cs with
    | '"' :: r =>
      match parseStrChars r with
      | some (kcs, r1) =>
        match skipWs r1 with
        | ':' :: r2 =>
          match pvJson fuel (skipWs r2) with
          | some (v, r3) =>
            match skipWs r3 with
            | ',' :: r4 =>
              match pmJson fuel (skipWs r4) with
              | some (ms, r5) => some (.cons (String.mk kcs) v ms, r5)
              | none => none
            | '\x7d' :: r4 => some (.cons (String.mk kcs) v .nil, r4)
            | _ => none
          | none => none
        | _ => none
      | none => none
    | _ => none
end

/-- json.loads: read one document, then require only whitespace to remain.
The fuel length + 1 always suffices (each recursive call consumes at least
one character of input). -/
def json_loads (s : String) : Option Json :=
  match pvJson (s.length + 1) s.data with
  | some (v, r) => if (skipWs r).isEmpty then some v else none
  | none => none

/-! ## CacheStore (app/services/cache/cache.py over a redis backend) -/

/-- One live redis key: its value string and its absolute expiry instant
(setex key ttl value stores expiry now + ttl; a read at or past the expiry
instant misses). -/
structure Entry where
  key : String
  val : String
  expAt : Nat
deriving DecidableEq

/-- The redis database reachable from the module handle: a finite map from
keys to entries, represented as a list with unique keys. -/
structure RedisState where
  entries : List Entry
deriving DecidableEq

/-- The module-level cache handle of cache.py together with its two failure
modes: down is r = None (redis.from_url or ping failed at import), failing
is a live handle whose operations raise (caught by each operation's
try/except), up is a healthy store. -/
inductive Backend where
  | down : Backend
  | failing (st : RedisState) : Backend
  | up (st : RedisState) : Backend
deriving DecidableEq

/-- SETEX: overwrite the entry for the key in place, else append it. -/
def setEntry : List Entry → String → String → Nat → List Entry
  | [], k, v, e => [⟨k, v, e⟩]
  | x :: xs, k, v, e => if x.key = k then ⟨k, v, e⟩ :: xs else x :: setEntry xs k v e

/-- GET: the stored string iff the key is present and unexpired. -/
def getEntry (l : List Entry) (k : String) (now : Nat) : Option String :=
  match l.find? (fun x => x.key == k) with
  | some e => if now < e.expAt then some e.val else none
  | none => none

/-- Redis glob matching restricted to the metacharacters this codebase uses
(a star matches any run, a question mark one character, anything else
itself; bracket classes never occur in the repository's patterns). -/
def globMatch : List Char → List Char → Bool
  | [], s => s.isEmpty
  | c :: ps, s =>
    if c = '*' then s.tails.any (fun t => globMatch ps t)
    else
      match s with
      | [] => false
      | d :: s2 => (if c = '?' then true else c = d) && globMatch ps s2

/-- Whether a live entry is visible to SCAN with the given pattern now. -/
def sweepHit (pat : String) (now : Nat) (e : Entry) : Bool :=
  globMatch pat.data e.key.data && decide (now < e.expAt)

/-- cache.py cache_get: None when the handle is absent or the operation
raises; otherwise fetch the key and json-decode it, an empty or undecodable
payload (json.loads raising) also yielding None. -/
def cache_get (be : Backend) (now : Nat) (key : String) : Option Json :=
  match be with
  | .down => none
  | .failing _ => none
  | .up st =>
    match getEntry st.entries key now with
    | some data => if data = "" then none else json_loads data
    | none => none

/-- cache.py cache_set: a no-op when the handle is absent or raises, else
SETEX of the default-separator json.dumps of the value. -/
def cache_set (be : Backend) (now : Nat) (key : String) (value : Json) (ttl : Nat) : Backend :=
  match be with
  | .down => .down
  | .failing st => .failing st
  | .up st => .up ⟨setEntry st.entries key (json_dumps_default value) (now + ttl)⟩

/-- cache.py cache_delete: a no-op when the handle is absent or raises,
else DEL of the key. -/
def cache_delete (be : Backend) (key : String) : Backend :=
  match be with
  | .down => .down
  | .failing st => .failing st
  | .up st => .up ⟨st.entries.filter (fun e => !(e.key == key))⟩

/-- cache.py cache_delete_pattern: zero when the handle is absent or
raises; otherwise delete every live key SCAN yields for the pattern and
return how many were deleted. -/
def cache_delete_pattern (be : Backend) (now : Nat) (pat : String) : Nat × Backend :=
  match be with
  | .down => (0, .down)
  | .failing st => (0, .failing st)
  | .up st =>
    ((st.entries.filter (sweepHit pat now)).length,
      .up ⟨st.entries.filter (fun e => !sweepHit pat now e)⟩)

/-- cache.py cache_clear: a no-op when the handle is absent or raises,
else FLUSHDB. -/
def cache_clear (be : Backend) : Backend :=
  match be with
  | .down => .down
  | .failing st => .failing st
  | .up st => .up ⟨[]⟩

/-! ## ReadThroughMiddleware (the cache_middleware block of gateway.py) -/

/-- An inbound HTTP request as the middleware sees it: method, url path and
raw query string (empty when absent). -/
structure Request where
  method : String
  path : String
  query : String
deriving DecidableEq

/-- An HTTP response at the granularity the middleware manipulates: status
code and body bytes.  Header propagation (dict(response.headers)) is
framework plumbing outside the model. -/
structure Response where
  status : Nat
  body : String
deriving DecidableEq

/-- The cache key of gateway.py: "METHOD:path" with "?query" appended
verbatim when a query string is present. -/
def cacheKeyOf (req : Request) : String :=
  req.method ++ ":" ++ req.path ++ (if req.query = "" then "" else "?" ++ req.query)

/-- JSONResponse(content=data): status 200 with the compact json.dumps of
the document as body. -/
def JSONResponseOf (v : Json) : Response := ⟨200, json_dumps_compact v⟩

/-- The cache_middleware function of gateway.py, one request end to end.
Arguments: backend handle, current instant, downstream pipeline
(call_next), request.  Result: the response returned to the client, the
backend afterwards, and whether call_next was invoked.

Mirrors the source order: on an api GET, look the key up and short-circuit
when the cached document is truthy (the hit test is the Python truthiness
of cache_get's result); otherwise run the handler; cache an api GET 200
whose body json-decodes (re-emitting the identical bytes; a decode failure
returns the handler response uncached); after an api POST/PUT/DELETE sweep
the forms pattern when the path contains /forms or /create_form, else the
submissions pattern when it contains /submissions. -/
def cache_middleware (be : Backend) (now : Nat) (callNext : Request → Response)
    (req : Request) : Response × Backend × Bool :=
  let isApi := leadsWith "/api/" req.path
  let hit : Option Json :=
    if req.method = "GET" ∧ isApi = true then
      match cache_get be now (cacheKeyOf req) with
      | some v => if truthy v then some v else none
      | none => none
    else none
  match hit with
  | some v => (JSONResponseOf v, be, false)
  | none =>
    let response := callNext req
    if req.method = "GET" ∧ isApi = true ∧ response.status = 200 then
      match json_loads response.body with
      | some data =>
        (response, cache_set be now (cacheKeyOf req) data 3600, true)
      | none => (response, be, true)
    else if (req.method = "POST" ∨ req.method = "PUT" ∨ req.method = "DELETE") ∧ isApi = true then
      if occursIn "/forms" req.path = true ∨ occursIn "/create_form" req.path = true then
        (response, (cache_delete_pattern be now "GET:/api/forms*").2, true)
      else if occursIn "/submissions" req.path = true then
        (response, (cache_delete_pattern be now "GET:/api/submissions*").2, true)
      else (response, be, true)
    else (response, be, true)

/-! ## ValidationEngine (validate_form_data of validators.py) -/

/-- A Python payload value as validate_form_data inspects it.  Containers
are outside the modelled universe; a missing dict key surfaces as pnone
(data.get returns None). -/
inductive PyVal where
  | pnone : PyVal
  | pbool (b : Bool) : PyVal
  | pint (n : Int) : PyVal
  | pstr (s : String) : PyVal
deriving DecidableEq

/-- Python truthiness of a payload value. -/
def pyTruthy : PyVal → Bool
  | .pnone => false
  | .pbool b => b
  | .pint n => if n = 0 then false else true
  | .pstr s => if s = "" then false else true

/-- Python str() of a payload value. -/
def pyToStr : PyVal → String
  | .pnone => "None"
  | .pbool true => "True"
  | .pbool false => "False"
  | .pint n => intRepr n
  | .pstr s => s

/-- Python str.strip() whitespace. -/
def isPyWs (c : Char) : Bool :=
  c = ' ' || c = '\t' || c = '\n' || c = '\r' || c = '\x0b' || c = '\x0c'

/-- Python str.strip(). -/
def pyStrip (s : String) : String :=
  String.mk (((s.data.dropWhile isPyWs).reverse.dropWhile isPyWs).reverse)

/-- One FieldSpec as validate_form_data reads it out of the schema dict:
each optional component models the corresponding field_config.get call,
with absence meaning the source-side default applies.  Numeric constraint
values are modelled as integers. -/
structure FieldConfig where
  ftype : Option String
  required : Bool
  minLength : Option Int
  maxLength : Option Int
  minVal : Option Int
  maxVal : Option Int
  options : List String
deriving DecidableEq

/-- Python float() on the trimmed string form of a value, restricted to
integer literals (optional sign and decimal digits); fractional, exponent,
infinity, nan, hex and underscore forms are outside the model. -/
def pyFloat (s : String) : Option Int :=
  match s.data with
  | [] => none
  | '-' :: r =>
    match r with
    | [] => none
    | c :: _ =>
      if isDig c then
        match munchDigits r 0 with
        | (n, []) => some (-(n : Int))
        | (_, _ :: _) => none
      else none
  | '+' :: r =>
    match r with
    | [] => none
    | c :: _ =>
      if isDig c then
        match munchDigits r 0 with
        | (n, []) => some ((n : Int))
        | (_, _ :: _) => none
      else none
  | c :: _ =>
    if isDig c then
      match munchDigits s.data 0 with
      | (n, []) => some ((n : Int))
      | (_, _ :: _) => none
    else none

/-- Month or day token of datetime.strptime "%Y-%m-%d": one or two decimal
digits whose value lies in the closed interval. -/
def tokenIn (lo hi : Nat) : List Char → Option Nat
  | [c] => if isDig c && lo ≤ digVal c && digVal c ≤ hi then some (digVal c) else none
  | [c, d] =>
    if isDig c && isDig d && lo ≤ digVal c * 10 + digVal d && digVal c * 10 + digVal d ≤ hi then
      some (digVal c * 10 + digVal d)
    else none
  | _ => none

/-- Gregorian leap year as datetime uses it. -/
def isLeap (y : Nat) : Bool := (y % 4 = 0 && y % 100 ≠ 0) || y % 400 = 0

/-- Days in a month as datetime uses it. -/
def daysInMonth (y m : Nat) : Nat :=
  if m = 2 then (if isLeap y then 29 else 28)
  else if m = 4 || m = 6 || m = 9 || m = 11 then 30
  else 31

/-- Everything up to the first dash, and the rest after it. -/
def splitDash : List Char → Option (List Char × List Char)
  | [] => none
  | c :: r =>
    if c = '-' then some ([], r)
    else
      match splitDash r with
      | some (a, b) => some (c :: a, b)
      | none => none

/-- datetime.strptime(s, "%Y-%m-%d") succeeding: exactly four digits of
year, a dash, a one- or two-digit month in 1..12, a dash, a one- or
two-digit day in 1..31, nothing left over, and the triple a real calendar
date with year at least MINYEAR = 1. -/
def isValidDate (s : String) : Bool :=
  match s.data with
  | y1 :: y2 :: y3 :: y4 :: '-' :: rest =>
    if isDig y1 && isDig y2 && isDig y3 && isDig y4 then
      let y := ((digVal y1 * 10 + digVal y2) * 10 + digVal y3) * 10 + digVal y4
      match splitDash rest with
      | some (mcs, dcs) =>
        match tokenIn 1 12 mcs, tokenIn 1 31 dcs with
        | some m, some d => decide (1 ≤ y) && decide (d ≤ daysInMonth y m)
        | _, _ => false
      | none => false
    else false
  | _ => false

/-- Python str.split(sep)[-1] for a one-character separator: the suffix
after the last occurrence of the separator (the whole string when the
separator does not occur). -/
def lastSegAfter (sep : Char) (cs : List Char) : List Char :=
  match cs with
  | [] => []
  | c :: r => if c = sep then lastSegAfter sep r else
      match occursCh [sep] r with
      | true => lastSegAfter sep r
      | false => c :: r

/-- Python ', '.join. -/
def joinComma : List String → String
  | [] => ""
  | [s] => s
  | s :: s2 :: tl => s ++ ", " ++ joinComma (s2 :: tl)

/-- The type-dispatch block of validate_form_data (source lines 54..100),
applied to the trimmed string form of a truthy value: the errors the
field's declared type contributes, in emission order. -/
def typeErrors (fieldName : String) (cfg : FieldConfig) (s : String) : List String :=
  match cfg.ftype with
  | some "string" =>
    (if (s.length : Int) < cfg.minLength.getD 0 then
      [fieldName ++ " must be at least " ++ intRepr (cfg.minLength.getD 0) ++ " characters"]
    else []) ++
    (match cfg.maxLength with
     | some maxl => if (s.length : Int) > maxl then
         [fieldName ++ " must be no more than " ++ intRepr maxl ++ " characters"]
       else []
     | none => [])
  | some "text" =>
    (if (s.length : Int) < cfg.minLength.getD 0 then
      [fieldName ++ " must be at least " ++ intRepr (cfg.minLength.getD 0) ++ " characters"]
    else []) ++
    (match cfg.maxLength with
     | some maxl => if (s.length : Int) > maxl then
         [fieldName ++ " must be no more than " ++ intRepr maxl ++ " characters"]
       else []
     | none => [])
  | some "email" =>
    if !(occursIn "@" s) || !(occursCh ['.'] (lastSegAfter '@' s.data)) then
      [fieldName ++ " must be a valid email address"]
    else []
  | some "password" =>
    if (s.length : Int) < cfg.minLength.getD 6 then
      [fieldName ++ " must be at least " ++ intRepr (cfg.minLength.getD 6) ++ " characters"]
    else []
  | some "date" =>
    if isValidDate s then [] else [fieldName ++ " must be in YYYY-MM-DD format"]
  | some "number" =>
    match pyFloat s with
    | some num =>
      (match cfg.minVal with
       | some minv => if num < minv then
           [fieldName ++ " must be at least " ++ intRepr minv]
         else []
       | none => []) ++
      (match cfg.maxVal with
       | some maxv => if num > maxv then
           [fieldName ++ " must be at most " ++ intRepr maxv]
         else []
       | none => [])
    | none => [fieldName ++ " must be a number"]
  | some "dropdown" =>
    if s ∈ cfg.options then []
    else [fieldName ++ " must be one of: " ++ joinComma cfg.options]
  | _ => []

/-- The loop body of validate_form_data for one schema field: the required
check first (absent, None or empty string while required emits the single
required error and stops), then the truthiness skip, then the type
dispatch on the trimmed str() form. -/
def fieldErrors (fieldName : String) (cfg : FieldConfig) (value : PyVal) : List String :=
  if cfg.required = true ∧ (value = .pnone ∨ value = .pstr "") then
    [fieldName ++ " is required"]
  else if pyTruthy value = false then []
  else typeErrors fieldName cfg (pyStrip (pyToStr value))

/-- The whole schema loop, emission order following schema order. -/
def collectErrors : List (String × FieldConfig) → List (String × PyVal) → List String
  | [], _ => []
  | (f, cfg) :: rest, data =>
    fieldErrors f cfg ((data.lookup f).getD .pnone) ++ collectErrors rest data

/-- validate_form_data(data, schema) of validators.py: the valid flag is
the emptiness of the error list. -/
def validate_form_data (data : List (String × PyVal))
    (schema : List (String × FieldConfig)) : Bool × List String :=
  ((collectErrors schema data).isEmpty, collectErrors schema data)

/-! ## Auxiliary definitions used by statements and fixtures -/

/-- A list head at which a number token cannot continue (round-trip side
condition: json number reading is greedy over digits). -/
def stopOK : List Char → Bool
  | [] => true
  | c :: _ => !isDig c

/-- No key of ms occurs in acc. -/
def keysDisjoint (acc : JsonMembers) : JsonMembers → Bool
  | .nil => true
  | .cons k _ tl => !(keyMem k acc) && keysDisjoint acc tl

/-- Following the claim's words (C7), not the source: the trimmed string is
exactly of the form YYYY-MM-DD with a four-digit year, a two-digit month, a
two-digit day, and the triple a valid calendar date. -/
def specDateExact (s : String) : Bool :=
  match s.data with
  | [y1, y2, y3, y4, '-', m1, m2, '-', d1, d2] =>
    isDig y1 && isDig y2 && isDig y3 && isDig y4 && isDig m1 && isDig m2 && isDig d1 &&
      isDig d2 &&
    (let y := ((digVal y1 * 10 + digVal y2) * 10 + digVal y3) * 10 + digVal y4
     let m := digVal m1 * 10 + digVal m2
     let d := digVal d1 * 10 + digVal d2
     decide (1 ≤ y) && decide (1 ≤ m) && decide (m ≤ 12) && decide (1 ≤ d) &&
       decide (d ≤ daysInMonth y m))
  | _ => false

/-- Shared calendar conditions of the amended date forms: four year digits,
year at least one, month 1..12, day within the month. -/
def dateFields (y1 y2 y3 y4 : Char) (m d : Nat) : Bool :=
  isDig y1 && isDig y2 && isDig y3 && isDig y4 &&
  (let y := ((digVal y1 * 10 + digVal y2) * 10 + digVal y3) * 10 + digVal y4
   decide (1 ≤ y) && decide (1 ≤ m) && decide (m ≤ 12) && decide (1 ≤ d) &&
     decide (d ≤ daysInMonth y m))

/-- Following the amended claim's words (C7), not the source: the string is
Y-M-D with exactly four year digits and one- or two-digit month and day
fields, a real calendar date (this is what strptime with %Y-%m-%d accepts). -/
def specDateLenient (s : String) : Bool :=
  match s.data with
  | [y1, y2, y3, y4, '-', m1, '-', d1] =>
    isDig m1 && isDig d1 && dateFields y1 y2 y3 y4 (digVal m1) (digVal d1)
  | [y1, y2, y3, y4, '-', m1, '-', d1, d2] =>
    isDig m1 && isDig d1 && isDig d2 &&
      dateFields y1 y2 y3 y4 (digVal m1) (digVal d1 * 10 + digVal d2)
  | [y1, y2, y3, y4, '-', m1, m2, '-', d1] =>
    isDig m1 && isDig m2 && isDig d1 &&
      dateFields y1 y2 y3 y4 (digVal m1 * 10 + digVal m2) (digVal d1)
  | [y1, y2, y3, y4, '-', m1, m2, '-', d1, d2] =>
    isDig m1 && isDig m2 && isDig d1 && isDig d2 &&
      dateFields y1 y2 y3 y4 (digVal m1 * 10 + digVal m2) (digVal d1 * 10 + digVal d2)
  | _ => false

/-- Fixture: a required string field spec. -/
def exStrCfg : FieldConfig := ⟨some "string", true, none, none, none, none, []⟩

/-- Fixture: an optional number field with a minimum of 18. -/
def exNumCfg : FieldConfig := ⟨some "number", false, none, none, some 18, none, []⟩

/-- Fixture: an optional email field spec. -/
def exEmailCfg : FieldConfig := ⟨some "email", false, none, none, none, none, []⟩

/-- Fixture: an optional date field spec. -/
def exDateCfg : FieldConfig := ⟨some "date", false, none, none, none, none, []⟩

/-- Fixture: a healthy store holding an empty-array document under the
forms list key. -/
def exC1Store : Backend := .up ⟨[⟨"GET:/api/forms", "[]", 100⟩]⟩

/-- Fixture: a handler that fails with a 500. -/
def exHandler500 : Request → Response := fun _ => ⟨500, "boom"⟩

/-- Fixture: a handler that answers 200 with a non-json body. -/
def exHandlerOk : Request → Response := fun _ => ⟨200, "ok"⟩

/-- Fixture: a healthy store holding one cached submissions read. -/
def exC4Store : Backend := .up ⟨[⟨"GET:/api/submissions", "1", 100⟩]⟩

/-! ## General lemmas about the validator -/

theorem leadsCh_self_append (a b : List Char) : leadsCh a (a ++ b) = true := by
  induction a with
  | nil => rfl
  | cons c tl ih => simp [leadsCh, ih]

theorem leadsWith_self_append (f t : String) : leadsWith f (f ++ t) = true := by
  rw [leadsWith, String.data_append]
  exact leadsCh_self_append f.data t.data

theorem typeErrors_shape (f : String) (cfg : FieldConfig) (s : String) :
    ∀ e ∈ typeErrors f cfg s, leadsWith f e = true := by
  intro e he
  unfold typeErrors at he
  repeat' split at he
  all_goals
    simp only [List.mem_append, List.mem_singleton, List.not_mem_nil, or_false,
      false_or] at he
  all_goals try (rcases he with rfl | rfl)
  all_goals try (rcases he with rfl)
  all_goals try simp only [String.append_assoc]
  all_goals exact leadsWith_self_append f _

theorem fieldErrors_shape (f : String) (cfg : FieldConfig) (v : PyVal) :
    ∀ e ∈ fieldErrors f cfg v, leadsWith f e = true := by
  intro e he
  unfold fieldErrors at he
  split at he
  · simp only [List.mem_singleton] at he
    subst he
    exact leadsWith_self_append f _
  · split at he
    · exact absurd he (by simp)
    · exact typeErrors_shape f cfg _ e he

theorem collectErrors_agree (schema : List (String × FieldConfig)) :
    ∀ data1 data2, (∀ f cfg, (f, cfg) ∈ schema → data1.lookup f = data2.lookup f) →
      collectErrors schema data1 = collectErrors schema data2 := by
  induction schema with
  | nil => intro _ _ _; rfl
  | cons hd tl ih =>
    intro d1 d2 h
    obtain ⟨f, cfg⟩ := hd
    rw [collectErrors, collectErrors, h f cfg (by simp),
      ih d1 d2 (fun f2 c2 h2 => h f2 c2 (List.mem_cons_of_mem _ h2))]

theorem collectErrors_shape (schema : List (String × FieldConfig)) :
    ∀ data e, e ∈ collectErrors schema data →
      ∃ f cfg, (f, cfg) ∈ schema ∧ leadsWith f e = true := by
  induction schema with
  | nil => intro _ e he; exact absurd he (by simp [collectErrors])
  | cons hd tl ih =>
    intro data e he
    obtain ⟨f, cfg⟩ := hd
    rw [collectErrors] at he
    rcases List.mem_append.1 he with h1 | h2
    · exact ⟨f, cfg, by simp, fieldErrors_shape f cfg _ e h1⟩
    · obtain ⟨f2, c2, hm, ht⟩ := ih data e h2
      exact ⟨f2, c2, List.mem_cons_of_mem _ hm, ht⟩

/-! ## Claim theorems: the validation engine -/

/-- C5: for every schema field with required set, a payload value that is
absent (dict get yields None), None, or the empty string makes
validate_form_data emit exactly the one required-error for that field and
skip all further checks on it; in particular the empty payload against the
required-name schema yields exactly that error. -/
theorem C5_required_short_circuit :
    (∀ f cfg data, cfg.required = true →
      ((data.lookup f).getD PyVal.pnone = PyVal.pnone ∨
        (data.lookup f).getD PyVal.pnone = PyVal.pstr "") →
      validate_form_data data [(f, cfg)] = (false, [f ++ " is required"])) ∧
    validate_form_data [] [("name", exStrCfg)] = (false, ["name is required"]) := by
  constructor
  · intro f cfg data hr hv
    have hfe : fieldErrors f cfg ((data.lookup f).getD PyVal.pnone) = [f ++ " is required"] := by
      rcases hv with hv | hv <;> rw [hv] <;> simp [fieldErrors, hr]
    simp [validate_form_data, collectErrors, hfe]
  · rfl

/-- C5 witness: the general part applied to the concrete required name
field with an absent payload entry. -/
theorem C5_required_short_circuit_witness :
    exStrCfg.required = true ∧
    validate_form_data [("x", PyVal.pint 3)] [("name", exStrCfg)] =
      (false, ["name is required"]) :=
  ⟨rfl, C5_required_short_circuit.1 "name" exStrCfg [("x", PyVal.pint 3)] rfl (Or.inl rfl)⟩

/-- C6 counterexample: the claim's own instance fails on the code.  The
payload value 0 for an optional number field with min 18 is present and is
neither null nor the empty string, yet validate_form_data emits no error at
all: the source line `if not value: continue` skips every Python-falsy
value, not only absent or empty ones, so the value is never checked
against min. -/
theorem C6_counterexample :
    PyVal.pint 0 ≠ PyVal.pnone ∧ PyVal.pint 0 ≠ PyVal.pstr "" ∧
    pyTruthy (PyVal.pint 0) = false ∧
    validate_form_data [("age", PyVal.pint 0)] [("age", exNumCfg)] = (true, []) :=
  ⟨by decide, by decide, rfl, rfl⟩

/-- C6 (amended): a field whose payload value is truthy is coerced to its
trimmed string form and dispatched to the declared type's checks; a falsy
payload value (None, False, 0, the empty string) that does not trigger the
required error is skipped with no type check at all.  The truthy number
instance from the specification exercises the min check. -/
theorem C6_truthiness_gate :
    (∀ f cfg v, pyTruthy v = true →
      fieldErrors f cfg v = typeErrors f cfg (pyStrip (pyToStr v))) ∧
    (∀ f cfg v, pyTruthy v = false →
      ¬(cfg.required = true ∧ (v = PyVal.pnone ∨ v = PyVal.pstr "")) →
      fieldErrors f cfg v = []) ∧
    validate_form_data [("age", PyVal.pstr "15")] [("age", exNumCfg)] =
      (false, ["age must be at least 18"]) := by
  refine ⟨?_, ?_, rfl⟩
  · intro f cfg v ht
    have hreq : ¬(cfg.required = true ∧ (v = PyVal.pnone ∨ v = PyVal.pstr "")) := by
      rintro ⟨_, rfl | rfl⟩ <;> simp [pyTruthy] at ht
    rw [fieldErrors, if_neg hreq, if_neg (by simp [ht])]
  · intro f cfg v hf hreq
    rw [fieldErrors, if_neg hreq, if_pos hf]

/-- C6 witness: the amended parts applied at concrete inputs, a truthy
string value reaching the number dispatch and the falsy zero being
skipped. -/
theorem C6_truthiness_gate_witness :
    pyTruthy (PyVal.pstr "15") = true ∧
    fieldErrors "age" exNumCfg (PyVal.pstr "15") =
      typeErrors "age" exNumCfg (pyStrip (pyToStr (PyVal.pstr "15"))) ∧
    pyTruthy (PyVal.pint 0) = false ∧
    fieldErrors "age" exNumCfg (PyVal.pint 0) = [] :=
  ⟨rfl, C6_truthiness_gate.1 "age" exNumCfg (PyVal.pstr "15") rfl, rfl,
    C6_truthiness_gate.2.1 "age" exNumCfg (PyVal.pint 0) rfl (by simp [exNumCfg])⟩

/-- C10: validate_form_data inspects only schema fields: the result depends
only on the payload's values at schema field names, every emitted message
starts with a schema field name, and the empty schema validates every
payload with no errors. -/
theorem C10_schema_driven :
    (∀ data, validate_form_data data [] = (true, [])) ∧
    (∀ data1 data2 schema,
      (∀ f cfg, (f, cfg) ∈ schema → data1.lookup f = data2.lookup f) →
      validate_form_data data1 schema = validate_form_data data2 schema) ∧
    (∀ data schema e, e ∈ (validate_form_data data schema).2 →
      ∃ f cfg, (f, cfg) ∈ schema ∧ leadsWith f e = true) := by
  refine ⟨fun _ => rfl, ?_, ?_⟩
  · intro d1 d2 schema h
    rw [validate_form_data, validate_form_data, collectErrors_agree schema d1 d2 h]
  · intro data schema e he
    exact collectErrors_shape schema data e he

/-- C10 witness: the agreement part applied to two payloads that differ
only outside the schema, and the shape part applied to the resulting
required-error. -/
theorem C10_schema_driven_witness :
    validate_form_data [("x", PyVal.pint 1)] [("name", exStrCfg)] =
      validate_form_data [] [("name", exStrCfg)] ∧
    (∃ f cfg, (f, cfg) ∈ [("name", exStrCfg)] ∧ leadsWith f "name is required" = true) := by
  constructor
  · exact C10_schema_driven.2.1 [("x", PyVal.pint 1)] [] [("name", exStrCfg)]
      (by intro f cfg h; simp at h; rw [h.1]; rfl)
  · exact C10_schema_driven.2.2 [] [("name", exStrCfg)] "name is required" (by rw [validate_form_data]; simp [collectErrors, fieldErrors, exStrCfg])

/-! ## Claim theorems: fail-open cache -/

/-- C2: every cache operation degrades to a miss, a no-op or a zero count
when the handle is absent (down) or the underlying store raises (failing),
and in both failure modes the middleware returns exactly the response the
downstream handler produces for every request — the same response as with
no cache configured — while still invoking the handler exactly as a
cacheless deployment would. -/
theorem C2_fail_open :
    (∀ now k, cache_get .down now k = none) ∧
    (∀ st now k, cache_get (.failing st) now k = none) ∧
    (∀ now k v ttl, cache_set .down now k v ttl = .down) ∧
    (∀ st now k v ttl, cache_set (.failing st) now k v ttl = .failing st) ∧
    (∀ k, cache_delete .down k = .down) ∧
    (∀ st k, cache_delete (.failing st) k = .failing st) ∧
    (∀ now p, cache_delete_pattern .down now p = (0, .down)) ∧
    (∀ st now p, cache_delete_pattern (.failing st) now p = (0, .failing st)) ∧
    (cache_clear .down = .down) ∧
    (∀ st, cache_clear (.failing st) = .failing st) ∧
    (∀ now callNext req,
      cache_middleware .down now callNext req = (callNext req, .down, true)) ∧
    (∀ st now callNext req,
      cache_middleware (.failing st) now callNext req = (callNext req, .failing st, true)) := by
  refine ⟨fun _ _ => rfl, fun _ _ _ => rfl, fun _ _ _ _ => rfl, fun _ _ _ _ _ => rfl,
    fun _ => rfl, fun _ _ => rfl, fun _ _ => rfl, fun _ _ _ => rfl, rfl, fun _ => rfl,
    ?_, ?_⟩
  · intro now callNext req
    rw [cache_middleware]
    simp only [cache_get, ite_self]
    repeat' split
    all_goals rfl
  · intro st now callNext req
    rw [cache_middleware]
    simp only [cache_get, ite_self]
    repeat' split
    all_goals rfl

/-! ## General lemmas about the store and glob sweeping -/

theorem tails_any_isEmpty (s : List Char) : (s.tails.any fun t => t.isEmpty) = true := by
  induction s with
  | nil => rfl
  | cons c tl ih => simp [List.tails, ih]

theorem glob_trailing_star (pre : List Char)
    (hp : pre.all (fun c => !(c = '*' || c = '?')) = true) :
    ∀ s, globMatch (pre ++ ['*']) s = leadsCh pre s := by
  induction pre with
  | nil =>
    intro s
    rw [List.nil_append, leadsCh]
    show (if ('*' : Char) = '*' then s.tails.any (fun t => globMatch [] t) else _) = true
    rw [if_pos rfl]
    have he : (fun t => globMatch [] t) = (fun t : List Char => t.isEmpty) := rfl
    rw [he]
    exact tails_any_isEmpty s
  | cons c tl ih =>
    intro s
    simp only [List.all_cons, Bool.and_eq_true, Bool.not_eq_true', Bool.or_eq_false_iff,
      decide_eq_false_iff_not] at hp
    rw [List.cons_append]
    show (if c = '*' then s.tails.any (fun t => globMatch (tl ++ ['*']) t)
      else match s with
        | [] => false
        | d :: s2 => (if c = '?' then true else (decide (c = d))) && globMatch (tl ++ ['*']) s2) =
      leadsCh (c :: tl) s
    rw [if_neg hp.1.1]
    cases s with
    | nil => rfl
    | cons d s2 =>
      show ((if c = '?' then true else decide (c = d)) && globMatch (tl ++ ['*']) s2) =
        (decide (c = d) && leadsCh tl s2)
      rw [if_neg hp.1.2, ih (by simp only [List.all_eq_true] at *; intro x hx; exact hp.2 x hx)]

theorem getEntry_cons_eq (e : Entry) (tl : List Entry) (k : String) (now : Nat)
    (hk : e.key = k) :
    getEntry (e :: tl) k now = if now < e.expAt then some e.val else none := by
  rw [getEntry, List.find?_cons_of_pos _ (by simp [hk])]

theorem getEntry_cons_ne (e : Entry) (tl : List Entry) (k : String) (now : Nat)
    (hk : ¬e.key = k) :
    getEntry (e :: tl) k now = getEntry tl k now := by
  rw [getEntry, List.find?_cons_of_neg _ (by simp [hk])]
  rfl

theorem getEntry_filter_dead (l : List Entry) (p : Entry → Bool) (k : String) (now : Nat)
    (h : ∀ e, e.key = k → now < e.expAt → p e = false) :
    getEntry (l.filter p) k now = none := by
  induction l with
  | nil => rfl
  | cons e tl ih =>
    by_cases hp : p e = true
    · rw [List.filter_cons, if_pos (by simp [hp])]
      by_cases hk : e.key = k
      · rw [getEntry_cons_eq e _ k now hk]
        have hlt : ¬(now < e.expAt) := fun hl => by simp [h e hk hl] at hp
        rw [if_neg hlt]
      · rw [getEntry_cons_ne e _ k now hk]
        exact ih
    · rw [List.filter_cons, if_neg (by simpa using hp)]
      exact ih

theorem getEntry_filter_keep (l : List Entry) (p : Entry → Bool) (k : String) (now : Nat)
    (h : ∀ e, e.key = k → p e = true) :
    getEntry (l.filter p) k now = getEntry l k now := by
  induction l with
  | nil => rfl
  | cons e tl ih =>
    by_cases hk : e.key = k
    · rw [List.filter_cons, if_pos (by simp [h e hk]), getEntry_cons_eq e _ k now hk,
        getEntry_cons_eq e tl k now hk]
    · by_cases hp : p e = true
      · rw [List.filter_cons, if_pos (by simp [hp]), getEntry_cons_ne e _ k now hk,
          getEntry_cons_ne e tl k now hk]
        exact ih
      · rw [List.filter_cons, if_neg (by simpa using hp), getEntry_cons_ne e tl k now hk]
        exact ih

theorem sweepHit_trailing_star (pre : String)
    (hp : pre.data.all (fun c => !(c = '*' || c = '?')) = true) (now : Nat) (e : Entry) :
    sweepHit (pre ++ "*") now e = (leadsWith pre e.key && decide (now < e.expAt)) := by
  rw [sweepHit, String.data_append]
  show (globMatch (pre.data ++ ['*']) e.key.data && _) = _
  rw [glob_trailing_star pre.data hp e.key.data]
  rfl

theorem cache_get_after_sweep (be : Backend) (now : Nat) (pat k : String)
    (hk : globMatch pat.data k.data = true) :
    cache_get (cache_delete_pattern be now pat).2 now k = none := by
  cases be with
  | down => rfl
  | failing st => rfl
  | up st =>
    show cache_get (.up ⟨st.entries.filter (fun e => !sweepHit pat now e)⟩) now k = none
    rw [cache_get]
    rw [getEntry_filter_dead _ _ _ _ (fun e hek hlt => by
      simp [sweepHit, hek, hk, hlt])]

/-! ## Claim theorems: middleware read path and invalidation -/

/-- C1 counterexample: a stored, unexpired value can fail to short-circuit.
The forms key holds the empty json array; cache_get returns it, yet the
middleware treats the Python-falsy document as a miss (the source tests
`if cached_data:`), invokes the downstream handler and returns the
handler's response instead of the cached value. -/
theorem C1_counterexample :
    cache_get exC1Store 0 "GET:/api/forms" = some (Json.arr .nil) ∧
    cacheKeyOf ⟨"GET", "/api/forms", ""⟩ = "GET:/api/forms" ∧
    (cache_middleware exC1Store 0 exHandler500 ⟨"GET", "/api/forms", ""⟩).2.2 = true ∧
    (cache_middleware exC1Store 0 exHandler500 ⟨"GET", "/api/forms", ""⟩).1 =
      exHandler500 ⟨"GET", "/api/forms", ""⟩ :=
  ⟨rfl, rfl, rfl, rfl⟩

/-- C1 (amended): on an api GET whose cache lookup returns a stored,
unexpired and truthy document, the middleware returns exactly that
document's JSONResponse, leaves the store untouched and never invokes the
downstream handler; a stored falsy document is instead treated as a miss. -/
theorem C1_hit_short_circuit :
    ∀ be now callNext req v, req.method = "GET" → leadsWith "/api/" req.path = true →
      cache_get be now (cacheKeyOf req) = some v → truthy v = true →
      cache_middleware be now callNext req = (JSONResponseOf v, be, false) := by
  intro be now callNext req v hm hapi hget ht
  rw [cache_middleware]
  simp only [hm, hapi, hget, ht, and_self, if_true, if_pos]

/-- C1 witness: the amended theorem applied to a store holding a truthy
one-element array under the forms key. -/
theorem C1_hit_short_circuit_witness :
    cache_middleware (.up ⟨[⟨"GET:/api/forms", "[1]", 10⟩]⟩) 0 exHandler500
      ⟨"GET", "/api/forms", ""⟩ =
      (JSONResponseOf (.arr (.cons (.num 1) .nil)), .up ⟨[⟨"GET:/api/forms", "[1]", 10⟩]⟩,
        false) :=
  C1_hit_short_circuit _ 0 exHandler500 ⟨"GET", "/api/forms", ""⟩
    (.arr (.cons (.num 1) .nil)) rfl rfl rfl rfl

/-- C4 counterexample: the invalidation branches are an if/elif chain, so a
mutation whose path contains both a forms marker and /submissions sweeps
only the forms pattern.  A POST to /api/forms/1/submissions leaves the
cached submissions read untouched even though its path contains
/submissions, contradicting the claim that every key matching
GET:/api/submissions* is deleted for any such mutation. -/
theorem C4_counterexample :
    occursIn "/submissions" "/api/forms/1/submissions" = true ∧
    (cache_middleware exC4Store 0 exHandlerOk ⟨"POST", "/api/forms/1/submissions", ""⟩).2.1 =
      exC4Store ∧
    cache_get
      (cache_middleware exC4Store 0 exHandlerOk ⟨"POST", "/api/forms/1/submissions", ""⟩).2.1
      0 "GET:/api/submissions" = some (Json.num 1) :=
  ⟨rfl, rfl, rfl⟩

/-- C4 (amended): an api POST/PUT/DELETE always returns the downstream
handler's response and always invokes it; afterwards, if the path contains
/forms or /create_form the forms pattern alone is swept (every live key
with the GET:/api/forms prefix then misses), else if it contains
/submissions the submissions pattern is swept likewise, and a path
matching neither family leaves the store untouched. -/
theorem C4_invalidation :
    ∀ be now callNext req,
      (req.method = "POST" ∨ req.method = "PUT" ∨ req.method = "DELETE") →
      leadsWith "/api/" req.path = true →
      ((cache_middleware be now callNext req).1 = callNext req ∧
        (cache_middleware be now callNext req).2.2 = true) ∧
      ((occursIn "/forms" req.path = true ∨ occursIn "/create_form" req.path = true) →
        (cache_middleware be now callNext req).2.1 =
          (cache_delete_pattern be now "GET:/api/forms*").2 ∧
        ∀ k, leadsWith "GET:/api/forms" k = true →
          cache_get (cache_middleware be now callNext req).2.1 now k = none) ∧
      (occursIn "/forms" req.path = false → occursIn "/create_form" req.path = false →
        occursIn "/submissions" req.path = true →
        (cache_middleware be now callNext req).2.1 =
          (cache_delete_pattern be now "GET:/api/submissions*").2 ∧
        ∀ k, leadsWith "GET:/api/submissions" k = true →
          cache_get (cache_middleware be now callNext req).2.1 now k = none) ∧
      (occursIn "/forms" req.path = false → occursIn "/create_form" req.path = false →
        occursIn "/submissions" req.path = false →
        (cache_middleware be now callNext req).2.1 = be) := by
  intro be now callNext req hm hapi
  have hmg : ¬(req.method = "GET") := by
    rcases hm with h | h | h <;> rw [h] <;> decide
  have hnh : ¬(req.method = "GET" ∧ leadsWith "/api/" req.path = true) := fun h => hmg h.1
  have hng : ¬(req.method = "GET" ∧ leadsWith "/api/" req.path = true ∧
      (callNext req).status = 200) := fun h => hmg h.1
  have hmw : cache_middleware be now callNext req =
      (callNext req,
        (if occursIn "/forms" req.path = true ∨ occursIn "/create_form" req.path = true then
          (cache_delete_pattern be now "GET:/api/forms*").2
        else if occursIn "/submissions" req.path = true then
          (cache_delete_pattern be now "GET:/api/submissions*").2
        else be), true) := by
    rw [cache_middleware]
    simp only [if_neg hnh, if_neg hng, if_pos (And.intro hm hapi)]
    split
    · rfl
    · split <;> rfl
  refine ⟨by rw [hmw]; exact ⟨rfl, rfl⟩, ?_, ?_, ?_⟩
  · intro hf
    rw [hmw]
    refine ⟨by simp only [if_pos hf], ?_⟩
    intro k hk
    simp only [if_pos hf]
    apply cache_get_after_sweep
    have hdata : ("GET:/api/forms*").data = ("GET:/api/forms").data ++ ['*'] := rfl
    rw [hdata, glob_trailing_star _ (by decide)]
    exact hk
  · intro hf1 hf2 hs
    have hnf : ¬(occursIn "/forms" req.path = true ∨ occursIn "/create_form" req.path = true) := by
      rw [hf1, hf2]; simp
    rw [hmw]
    refine ⟨by simp only [if_neg hnf, if_pos hs], ?_⟩
    intro k hk
    simp only [if_neg hnf, if_pos hs]
    apply cache_get_after_sweep
    have hdata : ("GET:/api/submissions*").data = ("GET:/api/submissions").data ++ ['*'] := rfl
    rw [hdata, glob_trailing_star _ (by decide)]
    exact hk
  · intro hf1 hf2 hs
    have hnf : ¬(occursIn "/forms" req.path = true ∨ occursIn "/create_form" req.path = true) := by
      rw [hf1, hf2]; simp
    rw [hmw]
    simp only [if_neg hnf, hs]
    rfl

/-- C4 witness: the amended theorem applied to a DELETE on the forms
resource with a healthy store holding one forms key and one submissions
key; the forms key misses afterwards. -/
theorem C4_invalidation_witness :
    (cache_middleware (.up ⟨[⟨"GET:/api/forms?page=1", "[1]", 50⟩, ⟨"GET:/api/submissions", "[2]", 50⟩]⟩)
        0 exHandlerOk ⟨"DELETE", "/api/forms/3", ""⟩).1 =
      exHandlerOk ⟨"DELETE", "/api/forms/3", ""⟩ ∧
    cache_get (cache_middleware (.up ⟨[⟨"GET:/api/forms?page=1", "[1]", 50⟩, ⟨"GET:/api/submissions", "[2]", 50⟩]⟩)
        0 exHandlerOk ⟨"DELETE", "/api/forms/3", ""⟩).2.1 0 "GET:/api/forms?page=1" = none := by
  have h := C4_invalidation
    (.up ⟨[⟨"GET:/api/forms?page=1", "[1]", 50⟩, ⟨"GET:/api/submissions", "[2]", 50⟩]⟩)
    0 exHandlerOk ⟨"DELETE", "/api/forms/3", ""⟩ (by right; right; rfl) rfl
  exact ⟨h.1.1, (h.2.1 (Or.inl rfl)).2 "GET:/api/forms?page=1" rfl⟩

/-- C9: with the store healthy, deleteByPattern over a trailing-star
prefix-glob pattern removes exactly the live entries whose key has that
prefix — the count returned is their exact number, every such key misses
afterwards, and a lookup of any key without the prefix is unchanged. -/
theorem C9_delete_by_pattern :
    ∀ st now pre, pre.data.all (fun c => !(c = '*' || c = '?')) = true →
      (cache_delete_pattern (.up st) now (pre ++ "*")).1 =
        (st.entries.filter (fun e => leadsWith pre e.key && decide (now < e.expAt))).length ∧
      (cache_delete_pattern (.up st) now (pre ++ "*")).2 =
        .up ⟨st.entries.filter (fun e => !(leadsWith pre e.key && decide (now < e.expAt)))⟩ ∧
      (∀ k, leadsWith pre k = true →
        cache_get (cache_delete_pattern (.up st) now (pre ++ "*")).2 now k = none) ∧
      (∀ k, leadsWith pre k = false →
        cache_get (cache_delete_pattern (.up st) now (pre ++ "*")).2 now k =
          cache_get (.up st) now k) := by
  intro st now pre hp
  have hsw : ∀ e, sweepHit (pre ++ "*") now e =
      (leadsWith pre e.key && decide (now < e.expAt)) := by
    intro e
    rw [sweepHit, String.data_append]
    show (globMatch (pre.data ++ ('*' :: ("" : String).data)) e.key.data && _) = _
    rw [glob_trailing_star pre.data hp e.key.data]
    rfl
  have hfilter1 : st.entries.filter (sweepHit (pre ++ "*") now) =
      st.entries.filter (fun e => leadsWith pre e.key && decide (now < e.expAt)) :=
    List.filter_congr (fun e _ => hsw e)
  have hfilter2 : st.entries.filter (fun e => !sweepHit (pre ++ "*") now e) =
      st.entries.filter (fun e => !(leadsWith pre e.key && decide (now < e.expAt))) :=
    List.filter_congr (fun e _ => by rw [hsw e])
  refine ⟨?_, ?_, ?_, ?_⟩
  · show (st.entries.filter (sweepHit (pre ++ "*") now)).length = _
    rw [hfilter1]
  · show Backend.up ⟨st.entries.filter (fun e => !sweepHit (pre ++ "*") now e)⟩ = _
    rw [hfilter2]
  · intro k hk
    show cache_get (.up ⟨st.entries.filter (fun e => !sweepHit (pre ++ "*") now e)⟩) now k = none
    rw [cache_get, getEntry_filter_dead _ _ _ _ (fun e hek hlt => by
      rw [hsw e, hek, hk, Bool.true_and, decide_eq_true hlt]
      rfl)]
  · intro k hk
    show cache_get (.up ⟨st.entries.filter (fun e => !sweepHit (pre ++ "*") now e)⟩) now k =
      cache_get (.up st) now k
    rw [cache_get, cache_get, getEntry_filter_keep _ _ _ _ (fun e hek => by
      rw [hsw e, hek, hk, Bool.false_and]
      rfl)]

/-- C9 witness: the theorem applied to a two-entry store and the forms
prefix, one matching live entry removed and counted, the other untouched. -/
theorem C9_delete_by_pattern_witness :
    (cache_delete_pattern
      (.up ⟨[⟨"GET:/api/forms?page=1", "[1]", 50⟩, ⟨"GET:/api/submissions", "[2]", 50⟩]⟩) 0
      ("GET:/api/forms" ++ "*")).1 = 1 ∧
    cache_get (cache_delete_pattern
      (.up ⟨[⟨"GET:/api/forms?page=1", "[1]", 50⟩, ⟨"GET:/api/submissions", "[2]", 50⟩]⟩) 0
      ("GET:/api/forms" ++ "*")).2 0 "GET:/api/submissions" =
      some (.arr (.cons (.num 2) .nil)) := by
  have h := C9_delete_by_pattern
    ⟨[⟨"GET:/api/forms?page=1", "[1]", 50⟩, ⟨"GET:/api/submissions", "[2]", 50⟩]⟩ 0
    "GET:/api/forms" (by decide)
  refine ⟨by rw [h.1]; rfl, ?_⟩
  rw [h.2.2.2 "GET:/api/submissions" rfl]
  rfl

/-! ## General lemmas about the email split -/

theorem occursCh_singleton (x : Char) : ∀ l : List Char, occursCh [x] l = true ↔ x ∈ l := by
  intro l
  induction l with
  | nil => simp [occursCh, leadsCh]
  | cons c hay ih =>
    rw [occursCh, leadsCh]
    simp only [Bool.or_eq_true, Bool.and_eq_true, ih, List.mem_cons]
    constructor
    · rintro (⟨h, _⟩ | h)
      · exact Or.inl (of_decide_eq_true h)
      · exact Or.inr h
    · rintro (rfl | h)
      · exact Or.inl ⟨by simp, rfl⟩
      · exact Or.inr h

theorem takeWhile_append_single_false (q : Char → Bool) (x : Char) (hx : q x = false) :
    ∀ a : List Char, (a ++ [x]).takeWhile q = a.takeWhile q := by
  intro a
  induction a with
  | nil => simp [List.takeWhile_cons, hx]
  | cons c a2 ih =>
    rw [List.cons_append, List.takeWhile_cons, List.takeWhile_cons]
    cases hq : q c
    · rfl
    · rw [ih]

theorem takeWhile_append_of_all (q : Char → Bool) (b : List Char) :
    ∀ a : List Char, a.all q = true → (a ++ b).takeWhile q = a ++ b.takeWhile q := by
  intro a
  induction a with
  | nil => simp
  | cons c a2 ih =>
    intro ha
    simp only [List.all_cons, Bool.and_eq_true] at ha
    rw [List.cons_append, List.takeWhile_cons, ha.1, ih ha.2]
    simp

theorem takeWhile_append_of_broken (q : Char → Bool) (b : List Char) :
    ∀ a : List Char, a.all q = false → (a ++ b).takeWhile q = a.takeWhile q := by
  intro a
  induction a with
  | nil => intro h; simp at h
  | cons c a2 ih =>
    intro ha
    simp only [List.all_cons, Bool.and_eq_false_iff] at ha
    rw [List.cons_append, List.takeWhile_cons, List.takeWhile_cons]
    cases hq : q c
    · rfl
    · rcases ha with ha | ha
      · rw [hq] at ha; cases ha
      · rw [ih ha]

theorem lastSegAfter_eq (sep : Char) :
    ∀ cs : List Char,
      lastSegAfter sep cs = (cs.reverse.takeWhile (fun c => !(c = sep))).reverse := by
  intro cs
  induction cs with
  | nil => rfl
  | cons c r ih =>
    by_cases hc : c = sep
    · subst hc
      rw [lastSegAfter, if_pos rfl, List.reverse_cons,
        takeWhile_append_single_false _ c (by simp), ih]
    · rw [lastSegAfter, if_neg hc]
      cases ho : occursCh [sep] r
      · have hnotin : sep ∉ r := fun hmem => by
          rw [(occursCh_singleton sep r).2 hmem] at ho; cases ho
        have hall : r.reverse.all (fun a => !(a = sep)) = true := by
          simp only [List.all_eq_true, List.mem_reverse, Bool.not_eq_true',
            decide_eq_false_iff_not]
          intro x hx hxe
          exact hnotin (hxe ▸ hx)
        show c :: r = ((c :: r).reverse.takeWhile (fun a => !(a = sep))).reverse
        rw [List.reverse_cons, takeWhile_append_of_all _ _ _ hall, List.takeWhile_cons]
        rw [if_pos (by simp [hc])]
        simp
      · have hin : sep ∈ r := (occursCh_singleton sep r).1 ho
        have hbrk : r.reverse.all (fun a => !(a = sep)) = false := by
          cases hr : r.reverse.all (fun a => !(a = sep))
          · rfl
          · exfalso
            have h2 := (List.all_eq_true.1 hr) sep (by simpa using hin)
            simp at h2
        show lastSegAfter sep r = ((c :: r).reverse.takeWhile (fun a => !(a = sep))).reverse
        rw [List.reverse_cons, takeWhile_append_of_broken _ _ _ hbrk, ih]

/-! ## Claim theorems: the email heuristic -/

/-- C8: an email field with a present non-empty value is accepted exactly
when the trimmed string contains an at sign and the substring after the
last at sign (characterised independently as the reversed longest
at-sign-free suffix) contains a dot; the two boundary examples of the
claim behave as stated. -/
theorem C8_email_heuristic :
    (∀ f cfg s, cfg.ftype = some "email" →
      (typeErrors f cfg s = [] ↔
        (occursIn "@" s = true ∧
          occursCh ['.'] ((s.data.reverse.takeWhile (fun c => !(c = '@'))).reverse) = true))) ∧
    validate_form_data [("e", .pstr "a@b@c.d")] [("e", exEmailCfg)] = (true, []) ∧
    validate_form_data [("e", .pstr "a.b@c")] [("e", exEmailCfg)] =
      (false, ["e must be a valid email address"]) := by
  refine ⟨?_, rfl, rfl⟩
  intro f cfg s hty
  obtain ⟨ft, req, minl, maxl, minv, maxv, opts⟩ := cfg
  simp only [FieldConfig.mk.injEq] at hty
  cases hty
  rw [show typeErrors f ⟨some "email", req, minl, maxl, minv, maxv, opts⟩ s =
      (if !(occursIn "@" s) || !(occursCh ['.'] (lastSegAfter '@' s.data)) then
        [f ++ " must be a valid email address"]
      else []) from rfl]
  rw [lastSegAfter_eq '@' s.data]
  cases hA : occursIn "@" s <;>
    cases hB : occursCh ['.'] ((s.data.reverse.takeWhile (fun c => !(c = '@'))).reverse) <;>
    simp [hA, hB]

/-- C8 witness: the characterisation applied to the double-at example. -/
theorem C8_email_heuristic_witness :
    occursIn "@" "a@b@c.d" = true ∧
    occursCh ['.']
      ((("a@b@c.d" : String).data.reverse.takeWhile (fun c => !(c = '@'))).reverse) = true ∧
    typeErrors "e" exEmailCfg "a@b@c.d" = [] :=
  ⟨rfl, rfl, (C8_email_heuristic.1 "e" exEmailCfg "a@b@c.d" rfl).2 ⟨rfl, rfl⟩⟩

/-! ## General lemmas about the strptime date model -/

theorem isDig_ne_dash (c : Char) (h : isDig c = true) : c ≠ '-' := by
  intro hc
  rw [hc] at h
  exact absurd h (by decide)

theorem splitDash_build (b : List Char) :
    ∀ a : List Char, '-' ∉ a → splitDash (a ++ '-' :: b) = some (a, b) := by
  intro a
  induction a with
  | nil => intro _; rw [List.nil_append, splitDash, if_pos rfl]
  | cons c a2 ih =>
    intro ha
    have hc : ¬(c = '-') := fun hc => ha (by rw [hc]; exact List.mem_cons_self _ _)
    rw [List.cons_append, splitDash, if_neg hc,
      ih (fun hm => ha (List.mem_cons_of_mem c hm))]

theorem splitDash_spec :
    ∀ cs a b, splitDash cs = some (a, b) → cs = a ++ '-' :: b ∧ '-' ∉ a := by
  intro cs
  induction cs with
  | nil => intro a b h; cases h
  | cons c r ih =>
    intro a b h
    rw [splitDash] at h
    by_cases hc : c = '-'
    · rw [if_pos hc] at h
      injection h with h
      injection h with h1 h2
      subst h1; subst h2; subst hc
      exact ⟨rfl, by simp⟩
    · rw [if_neg hc] at h
      cases hr : splitDash r with
      | none => rw [hr] at h; cases h
      | some p =>
        obtain ⟨a2, b2⟩ := p
        rw [hr] at h
        injection h with h
        injection h with h1 h2
        subst h2
        obtain ⟨he, hnm⟩ := ih a2 b2 hr
        subst he
        subst h1
        exact ⟨rfl, by
          intro hm
          rcases List.mem_cons.1 hm with h3 | h3
          · exact hc h3.symm
          · exact hnm h3⟩

theorem tokenIn_single (lo hi : Nat) (c : Char) (h1 : isDig c = true) (h2 : lo ≤ digVal c)
    (h3 : digVal c ≤ hi) : tokenIn lo hi [c] = some (digVal c) := by
  rw [tokenIn, if_pos (by simp [h1, h2, h3])]

theorem tokenIn_pair (lo hi : Nat) (c d : Char) (h1 : isDig c = true) (h2 : isDig d = true)
    (h3 : lo ≤ digVal c * 10 + digVal d) (h4 : digVal c * 10 + digVal d ≤ hi) :
    tokenIn lo hi [c, d] = some (digVal c * 10 + digVal d) := by
  rw [tokenIn, if_pos (by simp [h1, h2, h3, h4])]

theorem tokenIn_some (lo hi : Nat) (cs : List Char) (m : Nat) (h : tokenIn lo hi cs = some m) :
    (∃ c, cs = [c] ∧ isDig c = true ∧ lo ≤ digVal c ∧ digVal c ≤ hi ∧ m = digVal c) ∨
    (∃ c d, cs = [c, d] ∧ isDig c = true ∧ isDig d = true ∧
      lo ≤ digVal c * 10 + digVal d ∧ digVal c * 10 + digVal d ≤ hi ∧
      m = digVal c * 10 + digVal d) := by
  rcases cs with _ | ⟨c1, _ | ⟨c2, _ | ⟨c3, t⟩⟩⟩
  · simp [tokenIn] at h
  · rw [tokenIn] at h
    split at h
    · rename_i hcond
      simp only [Bool.and_eq_true, decide_eq_true_eq] at hcond
      injection h with h
      exact Or.inl ⟨c1, rfl, hcond.1.1, hcond.1.2, hcond.2, h.symm⟩
    · cases h
  · rw [tokenIn] at h
    split at h
    · rename_i hcond
      simp only [Bool.and_eq_true, decide_eq_true_eq] at hcond
      injection h with h
      exact Or.inr ⟨c1, c2, rfl, hcond.1.1.1, hcond.1.1.2, hcond.1.2, hcond.2, h.symm⟩
    · cases h
  · simp [tokenIn] at h

theorem specDateLenient_8 (y1 y2 y3 y4 m1 d1 : Char) :
    specDateLenient ⟨[y1, y2, y3, y4, '-', m1, '-', d1]⟩ =
      (isDig m1 && isDig d1 && dateFields y1 y2 y3 y4 (digVal m1) (digVal d1)) := by
  simp only [specDateLenient]

theorem specDateLenient_9a (y1 y2 y3 y4 m1 d1 d2 : Char) :
    specDateLenient ⟨[y1, y2, y3, y4, '-', m1, '-', d1, d2]⟩ =
      (isDig m1 && isDig d1 && isDig d2 &&
        dateFields y1 y2 y3 y4 (digVal m1) (digVal d1 * 10 + digVal d2)) := by
  simp only [specDateLenient]

theorem specDateLenient_10 (y1 y2 y3 y4 m1 m2 d1 d2 : Char) :
    specDateLenient ⟨[y1, y2, y3, y4, '-', m1, m2, '-', d1, d2]⟩ =
      (isDig m1 && isDig m2 && isDig d1 && isDig d2 &&
        dateFields y1 y2 y3 y4 (digVal m1 * 10 + digVal m2) (digVal d1 * 10 + digVal d2)) := by
  simp only [specDateLenient]

theorem specDateLenient_9b (y1 y2 y3 y4 m1 m2 d1 : Char) (hm2 : isDig m2 = true) :
    specDateLenient ⟨[y1, y2, y3, y4, '-', m1, m2, '-', d1]⟩ =
      (isDig m1 && isDig m2 && isDig d1 &&
        dateFields y1 y2 y3 y4 (digVal m1 * 10 + digVal m2) (digVal d1)) := by
  have hne : m2 ≠ '-' := isDig_ne_dash m2 hm2
  simp only [specDateLenient, hne]

theorem isValidDate_cons (y1 y2 y3 y4 : Char) (rest : List Char) :
    isValidDate ⟨y1 :: y2 :: y3 :: y4 :: '-' :: rest⟩ =
      (if isDig y1 && isDig y2 && isDig y3 && isDig y4 then
        match splitDash rest with
        | some (mcs, dcs) =>
          match tokenIn 1 12 mcs, tokenIn 1 31 dcs with
          | some m, some d =>
            decide (1 ≤ ((digVal y1 * 10 + digVal y2) * 10 + digVal y3) * 10 + digVal y4) &&
              decide (d ≤ daysInMonth
                (((digVal y1 * 10 + digVal y2) * 10 + digVal y3) * 10 + digVal y4) m)
          | _, _ => false
        | none => false
      else false) := by
  simp only [isValidDate]

theorem isValidDate_build (y1 y2 y3 y4 : Char) (rest mcs dcs : List Char) (m d : Nat)
    (hd4 : (isDig y1 && isDig y2 && isDig y3 && isDig y4) = true)
    (hsd : splitDash rest = some (mcs, dcs))
    (hm : tokenIn 1 12 mcs = some m) (hd : tokenIn 1 31 dcs = some d)
    (h1 : 1 ≤ ((digVal y1 * 10 + digVal y2) * 10 + digVal y3) * 10 + digVal y4)
    (h2 : d ≤ daysInMonth (((digVal y1 * 10 + digVal y2) * 10 + digVal y3) * 10 + digVal y4) m) :
    isValidDate ⟨y1 :: y2 :: y3 :: y4 :: '-' :: rest⟩ = true := by
  rw [isValidDate_cons, if_pos hd4]
  simp only [hsd, hm, hd]
  simp [h1, h2]

theorem lenient_of_valid (s : String) (hv : isValidDate s = true) :
    specDateLenient s = true := by
  rw [isValidDate] at hv
  split at hv
  case h_2 => simp at hv
  case h_1 y1 y2 y3 y4 rest heq =>
    have hs : s = ⟨y1 :: y2 :: y3 :: y4 :: '-' :: rest⟩ := by
      cases s
      simp only at heq
      rw [heq]
    subst hs
    split at hv
    case isFalse => simp at hv
    case isTrue hd4 =>
      split at hv
      case h_2 => simp at hv
      case h_1 mcs dcs heq2 =>
        split at hv
        case h_2 => simp at hv
        case h_1 m d heqm heqd =>
          simp only [Bool.and_eq_true, decide_eq_true_eq] at hv hd4
          obtain ⟨h1y, hdim⟩ := hv
          obtain ⟨⟨⟨hy1, hy2⟩, hy3⟩, hy4⟩ := hd4
          obtain ⟨hrest, hnm⟩ := splitDash_spec rest mcs dcs heq2
          subst hrest
          rcases tokenIn_some 1 12 mcs m heqm with
            ⟨c1, rfl, hdm1, hlom, hhim, rfl⟩ | ⟨c1, c2, rfl, hdm1, hdm2, hlom, hhim, rfl⟩ <;>
            rcases tokenIn_some 1 31 dcs d heqd with
              ⟨e1, rfl, hdd1, hlod, hhid, rfl⟩ | ⟨e1, e2, rfl, hdd1, hdd2, hlod, hhid, rfl⟩
          · show specDateLenient ⟨[y1, y2, y3, y4, '-', c1, '-', e1]⟩ = true
            rw [specDateLenient_8]
            simp [dateFields, hdm1, hdd1, hy1, hy2, hy3, hy4, h1y, hdim, hlom, hhim, hlod]
          · show specDateLenient ⟨[y1, y2, y3, y4, '-', c1, '-', e1, e2]⟩ = true
            rw [specDateLenient_9a]
            simp [dateFields, hdm1, hdd1, hdd2, hy1, hy2, hy3, hy4, h1y, hdim, hlom, hhim, hlod]
          · show specDateLenient ⟨[y1, y2, y3, y4, '-', c1, c2, '-', e1]⟩ = true
            rw [specDateLenient_9b _ _ _ _ _ _ _ hdm2]
            simp [dateFields, hdm1, hdm2, hdd1, hy1, hy2, hy3, hy4, h1y, hdim, hlom, hhim, hlod]
          · show specDateLenient ⟨[y1, y2, y3, y4, '-', c1, c2, '-', e1, e2]⟩ = true
            rw [specDateLenient_10]
            simp [dateFields, hdm1, hdm2, hdd1, hdd2, hy1, hy2, hy3, hy4, h1y, hdim, hlom,
              hhim, hlod]

theorem daysInMonth_le_31 (y m : Nat) : daysInMonth y m ≤ 31 := by
  rw [daysInMonth]
  split
  · split <;> omega
  · split <;> omega

theorem valid_of_lenient (s : String) (hl : specDateLenient s = true) :
    isValidDate s = true := by
  obtain ⟨cs⟩ := s
  rw [specDateLenient] at hl
  split at hl
  case h_5 => simp at hl
  case h_1 y1 y2 y3 y4 m1 d1 heq =>
    simp only at heq
    subst heq
    simp only [dateFields, Bool.and_eq_true, decide_eq_true_eq] at hl
    obtain ⟨⟨hm1, hd1⟩, ⟨⟨⟨hy1, hy2⟩, hy3⟩, hy4⟩, ⟨⟨⟨h1y, h1m⟩, hm12⟩, h1d⟩, hdim⟩ := hl
    exact isValidDate_build y1 y2 y3 y4 _ [m1] [d1] _ _
      (by simp [hy1, hy2, hy3, hy4])
      (splitDash_build [d1] [m1] (by
        intro hmem
        exact isDig_ne_dash m1 hm1 (List.mem_singleton.1 hmem).symm))
      (tokenIn_single 1 12 m1 hm1 h1m hm12)
      (tokenIn_single 1 31 d1 hd1 h1d (le_trans hdim (daysInMonth_le_31 _ _)))
      h1y hdim
  case h_2 y1 y2 y3 y4 m1 d1 d2 heq =>
    simp only at heq
    subst heq
    simp only [dateFields, Bool.and_eq_true, decide_eq_true_eq] at hl
    obtain ⟨⟨⟨hm1, hd1⟩, hd2⟩, ⟨⟨⟨hy1, hy2⟩, hy3⟩, hy4⟩, ⟨⟨⟨h1y, h1m⟩, hm12⟩, h1d⟩, hdim⟩ := hl
    exact isValidDate_build y1 y2 y3 y4 _ [m1] [d1, d2] _ _
      (by simp [hy1, hy2, hy3, hy4])
      (splitDash_build [d1, d2] [m1] (by
        intro hmem
        exact isDig_ne_dash m1 hm1 (List.mem_singleton.1 hmem).symm))
      (tokenIn_single 1 12 m1 hm1 h1m hm12)
      (tokenIn_pair 1 31 d1 d2 hd1 hd2 h1d
        (le_trans hdim (daysInMonth_le_31 _ _)))
      h1y hdim
  case h_3 y1 y2 y3 y4 m1 m2 d1 hov heq =>
    simp only at heq
    subst heq
    simp only [dateFields, Bool.and_eq_true, decide_eq_true_eq] at hl
    obtain ⟨⟨⟨hm1, hm2⟩, hd1⟩, ⟨⟨⟨hy1, hy2⟩, hy3⟩, hy4⟩, ⟨⟨⟨h1y, h1m⟩, hm12⟩, h1d⟩, hdim⟩ := hl
    exact isValidDate_build y1 y2 y3 y4 _ [m1, m2] [d1] _ _
      (by simp [hy1, hy2, hy3, hy4])
      (splitDash_build [d1] [m1, m2] (by
        intro hmem
        rcases List.mem_cons.1 hmem with h3 | h3
        · exact isDig_ne_dash m1 hm1 h3.symm
        · exact isDig_ne_dash m2 hm2 (List.mem_singleton.1 h3).symm))
      (tokenIn_pair 1 12 m1 m2 hm1 hm2 h1m hm12)
      (tokenIn_single 1 31 d1 hd1 h1d (le_trans hdim (daysInMonth_le_31 _ _)))
      h1y hdim
  case h_4 y1 y2 y3 y4 m1 m2 d1 d2 heq =>
    simp only at heq
    subst heq
    simp only [dateFields, Bool.and_eq_true, decide_eq_true_eq] at hl
    obtain ⟨⟨⟨⟨hm1, hm2⟩, hd1⟩, hd2⟩, ⟨⟨⟨hy1, hy2⟩, hy3⟩, hy4⟩, ⟨⟨⟨h1y, h1m⟩, hm12⟩, h1d⟩, hdim⟩ := hl
    exact isValidDate_build y1 y2 y3 y4 _ [m1, m2] [d1, d2] _ _
      (by simp [hy1, hy2, hy3, hy4])
      (splitDash_build [d1, d2] [m1, m2] (by
        intro hmem
        rcases List.mem_cons.1 hmem with h3 | h3
        · exact isDig_ne_dash m1 hm1 h3.symm
        · exact isDig_ne_dash m2 hm2 (List.mem_singleton.1 h3).symm))
      (tokenIn_pair 1 12 m1 m2 hm1 hm2 h1m hm12)
      (tokenIn_pair 1 31 d1 d2 hd1 hd2 h1d
        (le_trans hdim (daysInMonth_le_31 _ _)))
      h1y hdim

theorem isValidDate_eq_specDateLenient (s : String) : isValidDate s = specDateLenient s := by
  cases hv : isValidDate s with
  | true => rw [lenient_of_valid s hv]
  | false =>
    cases hl : specDateLenient s with
    | true => rw [valid_of_lenient s hl] at hv; cases hv
    | false => rfl

/-! ## Claim theorems: the date format check -/

/-- C7 counterexample: the claim's iff fails at "2023-1-5".  The string is
not exactly of YYYY-MM-DD form (one-digit month and day), so the claim
demands the format error, but strptime with %Y-%m-%d accepts one- or
two-digit month and day fields and the code emits no error at all. -/
theorem C7_counterexample :
    specDateExact "2023-1-5" = false ∧
    validate_form_data [("joined", PyVal.pstr "2023-1-5")] [("joined", exDateCfg)] =
      (true, []) :=
  ⟨rfl, rfl⟩

/-- C7 (amended): a date field errors exactly when the trimmed string is
not accepted by strptime %Y-%m-%d, and that acceptance is proved equal to
the lenient characterisation: four year digits, a dash, a one- or
two-digit month 1..12, a dash, a one- or two-digit day valid for the
month, year at least one.  Every string exactly of YYYY-MM-DD form with a
real calendar date is accepted, and the claim's concrete example still
errors as stated. -/
theorem C7_date_format :
    (∀ f cfg s, cfg.ftype = some "date" →
      typeErrors f cfg s =
        (if isValidDate s then [] else [f ++ " must be in YYYY-MM-DD format"])) ∧
    (∀ s, isValidDate s = specDateLenient s) ∧
    (∀ s, specDateExact s = true → isValidDate s = true) ∧
    validate_form_data [("joined", PyVal.pstr "2023-13-40")] [("joined", exDateCfg)] =
      (false, ["joined must be in YYYY-MM-DD format"]) ∧
    validate_form_data [("joined", PyVal.pstr "2023-12-31")] [("joined", exDateCfg)] =
      (true, []) := by
  refine ⟨?_, isValidDate_eq_specDateLenient, ?_, rfl, rfl⟩
  · intro f cfg s hty
    obtain ⟨ft, req, minl, maxl, minv, maxv, opts⟩ := cfg
    simp only at hty
    cases hty
    rfl
  · intro s hx
    apply valid_of_lenient
    obtain ⟨cs⟩ := s
    rw [specDateExact] at hx
    split at hx
    case h_2 => simp at hx
    case h_1 y1 y2 y3 y4 m1 m2 d1 d2 heq =>
      simp only at heq
      subst heq
      rw [specDateLenient_10]
      simp only [Bool.and_eq_true, decide_eq_true_eq] at hx
      obtain ⟨⟨⟨⟨⟨⟨⟨⟨hy1, hy2⟩, hy3⟩, hy4⟩, hm1⟩, hm2⟩, hd1⟩, hd2⟩, hbig⟩ := hx
      obtain ⟨⟨⟨⟨h1y, h1m⟩, hm12⟩, h1d⟩, hdim⟩ := hbig
      simp [dateFields, hy1, hy2, hy3, hy4, hm1, hm2, hd1, hd2, h1y, h1m, hm12, h1d, hdim]

/-- C7 witness: the error-iff part applied at a calendar-invalid exact-form
string, and the exact-form acceptance applied at a real date. -/
theorem C7_date_format_witness :
    exDateCfg.ftype = some "date" ∧
    typeErrors "joined" exDateCfg "2023-02-30" =
      (if isValidDate "2023-02-30" then [] else ["joined must be in YYYY-MM-DD format"]) ∧
    specDateExact "2023-12-31" = true ∧
    isValidDate "2023-12-31" = true :=
  ⟨rfl, C7_date_format.1 "joined" exDateCfg "2023-02-30" rfl, rfl,
    C7_date_format.2.2.1 "2023-12-31" rfl⟩

/-! ## Round-trip lemmas: numbers -/

theorem digChar_toNat (n : Nat) (h : n < 10) : (digChar n).toNat = 48 + n := by
  revert h
  revert n
  decide

theorem isDig_digChar (n : Nat) (h : n < 10) : isDig (digChar n) = true := by
  rw [isDig, digChar_toNat n h]
  simp
  omega

theorem digVal_digChar (n : Nat) (h : n < 10) : digVal (digChar n) = n := by
  rw [digVal, digChar_toNat n h]
  omega

theorem digChar_ne_zero (n : Nat) (h1 : 1 ≤ n) (h2 : n < 10) : digChar n ≠ '0' := by
  intro he
  have := digChar_toNat n h2
  rw [he] at this
  simp at this
  omega

theorem munch_stop (rest : List Char) (hs : stopOK rest = true) (acc : Nat) :
    munchDigits rest acc = (acc, rest) := by
  cases rest with
  | nil => rfl
  | cons c r =>
    rw [stopOK, Bool.not_eq_true'] at hs
    rw [munchDigits, hs]
    simp

theorem munch_natCharsGo (f : Nat) :
    ∀ n acc rest, n < 10 ^ f →
      munchDigits (natCharsGo f n ++ rest) acc =
        munchDigits rest (acc * 10 ^ (natCharsGo f n).length + n) := by
  induction f with
  | zero =>
    intro n acc rest hn
    interval_cases n
    simp [natCharsGo]
  | succ f ih =>
    intro n acc rest hn
    by_cases h10 : n < 10
    · rw [natCharsGo, if_pos h10]
      rw [List.singleton_append, munchDigits, isDig_digChar n h10]
      simp [digVal_digChar n h10]
    · rw [natCharsGo, if_neg h10]
      have hdiv : n / 10 < 10 ^ f := by
        rw [Nat.div_lt_iff_lt_mul (by omega)]
        calc n < 10 ^ (f + 1) := hn
        _ = 10 ^ f * 10 := by ring
      rw [List.append_assoc, ih (n / 10) acc ([digChar (n % 10)] ++ rest) hdiv,
        List.singleton_append, munchDigits, isDig_digChar (n % 10) (Nat.mod_lt n (by omega)),
        digVal_digChar (n % 10) (Nat.mod_lt n (by omega))]
      have hlen : (natCharsGo f (n / 10) ++ [digChar (n % 10)]).length =
          (natCharsGo f (n / 10)).length + 1 := by simp
      rw [hlen]
      simp only [if_true]
      rw [pow_succ]
      congr 1
      have hdm : 10 * (n / 10) + n % 10 = n := by omega
      calc (acc * 10 ^ (natCharsGo f (n / 10)).length + n / 10) * 10 + n % 10
          = acc * (10 ^ (natCharsGo f (n / 10)).length * 10) + (10 * (n / 10) + n % 10) := by
            ring
        _ = acc * (10 ^ (natCharsGo f (n / 10)).length * 10) + n := by rw [hdm]

theorem natCharsGo_head (f : Nat) :
    ∀ n, 1 ≤ n → n < 10 ^ f →
      ∃ c tl, natCharsGo f n = c :: tl ∧ isDig c = true ∧ c ≠ '0' := by
  induction f with
  | zero => intro n h1 h2; omega
  | succ f ih =>
    intro n h1 h2
    by_cases h10 : n < 10
    · rw [natCharsGo, if_pos h10]
      exact ⟨digChar n, [], rfl, isDig_digChar n h10, digChar_ne_zero n h1 h10⟩
    · rw [natCharsGo, if_neg h10]
      have hdiv : n / 10 < 10 ^ f := by
        rw [Nat.div_lt_iff_lt_mul (by omega)]
        calc n < 10 ^ (f + 1) := h2
        _ = 10 ^ f * 10 := by ring
      obtain ⟨c, tl, he, hd, hz⟩ := ih (n / 10) (by omega) hdiv
      exact ⟨c, tl ++ [digChar (n % 10)], by rw [he]; rfl, hd, hz⟩

theorem natChars_shape (n : Nat) :
    ∃ c tl, natChars n = c :: tl ∧ isDig c = true := by
  by_cases h1 : 1 ≤ n
  · obtain ⟨c, tl, he, hd, _⟩ := natCharsGo_head (n + 1) n h1
      (lt_of_lt_of_le (Nat.lt_pow_self (by omega) n) (Nat.pow_le_pow_right (by omega) (by omega)))
    exact ⟨c, tl, he, hd⟩
  · have hn : n = 0 := by omega
    subst hn
    exact ⟨'0', [], rfl, by decide⟩

theorem parseNatNum_natChars (n : Nat) (rest : List Char) (hs : stopOK rest = true) :
    parseNatNum (natChars n ++ rest) = some (n, rest) := by
  by_cases h1 : 1 ≤ n
  · have hn10 : n < 10 ^ (n + 1) :=
      lt_of_lt_of_le (Nat.lt_pow_self (by omega) n) (Nat.pow_le_pow_right (by omega) (by omega))
    obtain ⟨c, tl, he, hd, hz⟩ := natCharsGo_head (n + 1) n h1 hn10
    have hmunch : munchDigits (natChars n ++ rest) 0 = (n, rest) := by
      rw [natChars, munch_natCharsGo (n + 1) n 0 rest hn10, munch_stop rest hs]
      simp
    rw [natChars] at *
    rw [he, List.cons_append] at hmunch ⊢
    rw [munchDigits, hd] at hmunch
    simp only [if_true] at hmunch
    rw [Nat.zero_mul, Nat.zero_add] at hmunch
    rw [parseNatNum.eq_def]
    split
    · rename_i heq2
      simp at heq2
    · rename_i r2 heq2
      exfalso
      injection heq2 with he1 he2
      exact hz he1
    · rename_i c2 r2 heq2
      injection heq2 with he1 he2
      subst he1
      subst he2
      rw [hd]
      simp only [if_true]
      rw [hmunch]
  · have hn : n = 0 := by omega
    subst hn
    show parseNatNum ('0' :: rest) = some (0, rest)
    cases rest with
    | nil => rfl
    | cons c r =>
      rw [stopOK, Bool.not_eq_true'] at hs
      rw [parseNatNum, hs]
      simp

/-! ## Round-trip lemmas: strings -/

theorem hexVal_hexDigChar : ∀ m, m < 16 → hexVal (hexDigChar m) = some m := by decide

theorem pstr_done (r : List Char) : parseStrChars ('"' :: r) = some ([], r) := rfl

theorem pstr_esc_quote (r : List Char) :
    parseStrChars ('\\' :: '"' :: r) =
      (match parseStrChars r with
       | some (cs, r3) => some ('"' :: cs, r3)
       | none => none) := rfl

theorem pstr_esc_bs (r : List Char) :
    parseStrChars ('\\' :: '\\' :: r) =
      (match parseStrChars r with
       | some (cs, r3) => some ('\\' :: cs, r3)
       | none => none) := rfl

theorem pstr_esc_n (r : List Char) :
    parseStrChars ('\\' :: 'n' :: r) =
      (match parseStrChars r with
       | some (cs, r3) => some ('\n' :: cs, r3)
       | none => none) := rfl

theorem pstr_esc_r (r : List Char) :
    parseStrChars ('\\' :: 'r' :: r) =
      (match parseStrChars r with
       | some (cs, r3) => some ('\r' :: cs, r3)
       | none => none) := rfl

theorem pstr_esc_t (r : List Char) :
    parseStrChars ('\\' :: 't' :: r) =
      (match parseStrChars r with
       | some (cs, r3) => some ('\t' :: cs, r3)
       | none => none) := rfl

theorem pstr_esc_b (r : List Char) :
    parseStrChars ('\\' :: 'b' :: r) =
      (match parseStrChars r with
       | some (cs, r3) => some ('\x08' :: cs, r3)
       | none => none) := rfl

theorem pstr_esc_f (r : List Char) :
    parseStrChars ('\\' :: 'f' :: r) =
      (match parseStrChars r with
       | some (cs, r3) => some ('\x0c' :: cs, r3)
       | none => none) := rfl

theorem pstr_unicode (c1 c2 c3 c4 : Char) (a b d e : Nat)
    (ha : hexVal c1 = some a) (hb : hexVal c2 = some b)
    (hd : hexVal c3 = some d) (he : hexVal c4 = some e) (r : List Char) :
    parseStrChars ('\\' :: 'u' :: c1 :: c2 :: c3 :: c4 :: r) =
      (match parseStrChars r with
       | some (cs, r3) => some (Char.ofNat (((a * 16 + b) * 16 + d) * 16 + e) :: cs, r3)
       | none => none) := by
  have hstep : parseStrChars ('\\' :: 'u' :: c1 :: c2 :: c3 :: c4 :: r) =
      (match hexVal c1, hexVal c2, hexVal c3, hexVal c4 with
       | some a2, some b2, some d2, some e2 =>
         (match parseStrChars r with
          | some (cs, r3) =>
            some (Char.ofNat (((a2 * 16 + b2) * 16 + d2) * 16 + e2) :: cs, r3)
          | none => none)
       | _, _, _, _ => none) := rfl
  rw [hstep, ha, hb, hd, he]

set_option maxHeartbeats 1000000 in
theorem pstr_verbatim (c : Char) (h1 : ¬(c = '"')) (h2 : ¬(c = '\\')) (h3 : 32 ≤ c.toNat)
    (r : List Char) :
    parseStrChars (c :: r) =
      (match parseStrChars r with
       | some (cs, r3) => some (c :: cs, r3)
       | none => none) := by
  rw [parseStrChars.eq_def]
  split
  · rename_i heq; cases heq
  · rename_i r2 heq
    injection heq with he1 he2
    exact absurd he1 h1
  · rename_i r2 heq
    injection heq with he1 he2
    exact absurd he1 h2
  · rename_i c2 r2 hne1 hne2 heq
    injection heq with he1 he2
    subst he1
    subst he2
    rw [if_neg (by omega)]

theorem parseStrChars_escList :
    ∀ cs rest : List Char, parseStrChars (escList cs ++ '"' :: rest) = some (cs, rest) := by
  intro cs
  induction cs with
  | nil => intro rest; rfl
  | cons c cs ih =>
    intro rest
    rw [escList, List.append_assoc]
    by_cases h1 : c = '"'
    · subst h1
      rw [show escChar '"' = ['\\', '"'] from rfl]
      simp only [List.cons_append, List.nil_append]
      rw [pstr_esc_quote, ih rest]
    · by_cases h2 : c = '\\'
      · subst h2
        rw [show escChar '\\' = ['\\', '\\'] from rfl]
        simp only [List.cons_append, List.nil_append]
        rw [pstr_esc_bs, ih rest]
      · by_cases h3 : c = '\n'
        · subst h3
          rw [show escChar '\n' = ['\\', 'n'] from rfl]
          simp only [List.cons_append, List.nil_append]
          rw [pstr_esc_n, ih rest]
        · by_cases h4 : c = '\r'
          · subst h4
            rw [show escChar '\r' = ['\\', 'r'] from rfl]
            simp only [List.cons_append, List.nil_append]
            rw [pstr_esc_r, ih rest]
          · by_cases h5 : c = '\t'
            · subst h5
              rw [show escChar '\t' = ['\\', 't'] from rfl]
              simp only [List.cons_append, List.nil_append]
              rw [pstr_esc_t, ih rest]
            · by_cases h6 : c = '\x08'
              · subst h6
                rw [show escChar '\x08' = ['\\', 'b'] from rfl]
                simp only [List.cons_append, List.nil_append]
                rw [pstr_esc_b, ih rest]
              · by_cases h7 : c = '\x0c'
                · subst h7
                  rw [show escChar '\x0c' = ['\\', 'f'] from rfl]
                  simp only [List.cons_append, List.nil_append]
                  rw [pstr_esc_f, ih rest]
                · by_cases h8 : c.toNat < 32
                  · rw [show escChar c =
                        ['\\', 'u', '0', '0', hexDigChar (c.toNat / 16),
                          hexDigChar (c.toNat % 16)] from by
                      simp [escChar, h1, h2, h3, h4, h5, h6, h7, h8]]
                    simp only [List.cons_append, List.nil_append]
                    rw [pstr_unicode '0' '0' _ _ 0 0 (c.toNat / 16) (c.toNat % 16) rfl rfl
                      (hexVal_hexDigChar _ (by omega)) (hexVal_hexDigChar _ (by omega)),
                      ih rest]
                    have hval : ((0 * 16 + 0) * 16 + c.toNat / 16) * 16 + c.toNat % 16 =
                        c.toNat := by omega
                    rw [hval, Char.ofNat_toNat]
                  · rw [show escChar c = [c] from by
                      simp [escChar, h1, h2, h3, h4, h5, h6, h7, h8]]
                    simp only [List.cons_append, List.nil_append]
                    rw [pstr_verbatim c h1 h2 (by omega), ih rest]

/-! ## Round-trip lemmas: whitespace, heads, objects, store steps -/

theorem skipWs_nonWs (c : Char) (h : isJWs c = false) (l : List Char) :
    skipWs (c :: l) = c :: l := by
  rw [skipWs, h]
  simp

theorem skipWs_ws_append (r : List Char) :
    ∀ l : List Char, l.all isJWs = true → skipWs (l ++ r) = skipWs r := by
  intro l
  induction l with
  | nil => intro _; rfl
  | cons c tl ih =>
    intro h
    simp only [List.all_cons, Bool.and_eq_true] at h
    rw [List.cons_append, skipWs, h.1, ih h.2]
    simp

theorem isDig_head_facts (c : Char) (h : isDig c = true) :
    isJWs c = false ∧ ¬(c = ']') := by
  constructor
  · cases hw : isJWs c
    · rfl
    · exfalso
      rw [isJWs] at hw
      simp only [Bool.or_eq_true, decide_eq_true_eq] at hw
      rcases hw with ((rfl | rfl) | rfl) | rfl <;> exact absurd h (by decide)
  · intro hc
    rw [hc] at h
    exact absurd h (by decide)

theorem dumpsV_shape (isep ksep : List Char) (v : Json) :
    ∃ c tl, dumpsV isep ksep v = c :: tl ∧ isJWs c = false ∧ ¬(c = ']') := by
  cases v with
  | null => exact ⟨'n', _, rfl, by decide, by decide⟩
  | bool b => cases b
               <;> [exact ⟨'f', _, rfl, by decide, by decide⟩;
                    exact ⟨'t', _, rfl, by decide, by decide⟩]
  | num i =>
    show ∃ c tl, intChars i = c :: tl ∧ _
    rw [intChars]
    by_cases hi : i < 0
    · rw [if_pos hi]
      exact ⟨'-', _, rfl, by decide, by decide⟩
    · rw [if_neg hi]
      obtain ⟨c, tl, he, hd⟩ := natChars_shape i.toNat
      obtain ⟨hw, hne⟩ := isDig_head_facts c hd
      exact ⟨c, tl, he, hw, hne⟩
  | str s => exact ⟨'"', _, rfl, by decide, by decide⟩
  | arr xs =>
    cases xs with
    | nil => exact ⟨'[', _, rfl, by decide, by decide⟩
    | cons x tl => exact ⟨'[', _, rfl, by decide, by decide⟩
  | obj kvs =>
    cases kvs with
    | nil => exact ⟨'\x7b', _, rfl, by decide, by decide⟩
    | cons k v tl => exact ⟨'\x7b', _, rfl, by decide, by decide⟩

theorem dumpsL_cons_shape (isep ksep : List Char) (x : Json) (tl : JsonList) :
    ∃ c ctl, dumpsL isep ksep (.cons x tl) = c :: ctl ∧ isJWs c = false ∧ ¬(c = ']') := by
  obtain ⟨c, ctl, he, hw, hne⟩ := dumpsV_shape isep ksep x
  cases tl with
  | nil => exact ⟨c, ctl, he, hw, hne⟩
  | cons y tl2 =>
    rw [dumpsL, he]
    exact ⟨c, _, rfl, hw, hne⟩

theorem mAppend_nil : ∀ a : JsonMembers, mAppend a .nil = a
  | .nil => rfl
  | .cons k v tl => by rw [mAppend, mAppend_nil tl]

theorem keyMem_mAppend (k : String) (b : JsonMembers) :
    ∀ a, keyMem k (mAppend a b) = (keyMem k a || keyMem k b)
  | .nil => by rw [mAppend, keyMem, Bool.false_or]
  | .cons k0 v0 tl => by
    rw [mAppend, keyMem, keyMem, keyMem_mAppend k b tl, Bool.or_assoc]

theorem insertKV_not_mem (k : String) (v : Json) :
    ∀ acc, keyMem k acc = false → insertKV acc k v = mAppend acc (.cons k v .nil)
  | .nil, _ => rfl
  | .cons k0 v0 tl, h => by
    rw [keyMem, Bool.or_eq_false_iff] at h
    rw [insertKV, if_neg (by simpa using h.1), mAppend, insertKV_not_mem k v tl h.2]

theorem mAppend_assoc (b c : JsonMembers) :
    ∀ a, mAppend (mAppend a b) c = mAppend a (mAppend b c)
  | .nil => rfl
  | .cons k v tl => by rw [mAppend, mAppend, mAppend, mAppend_assoc b c tl]

theorem keysDisjoint_mAppend (a b : JsonMembers) :
    ∀ ms, keysDisjoint (mAppend a b) ms = (keysDisjoint a ms && keysDisjoint b ms)
  | .nil => rfl
  | .cons k v tl => by
    rw [keysDisjoint, keysDisjoint, keysDisjoint, keyMem_mAppend,
      keysDisjoint_mAppend a b tl]
    cases keyMem k a <;> cases keyMem k b <;> cases keysDisjoint a tl <;>
      cases keysDisjoint b tl <;> rfl

theorem keysDisjoint_single (k : String) (v : Json) :
    ∀ tl, keyMem k tl = false → keysDisjoint (.cons k v .nil) tl = true
  | .nil, _ => rfl
  | .cons k2 v2 tl2, h => by
    rw [keyMem, Bool.or_eq_false_iff] at h
    rw [keysDisjoint, keysDisjoint_single k v tl2 h.2, Bool.and_true, keyMem, keyMem,
      Bool.or_false]
    have h1 : ¬(k2 = k) := by simpa using h.1
    have h2 : ¬(k = k2) := fun hh => h1 hh.symm
    simp [h2]

theorem keysDisjoint_nil_left : ∀ ms : JsonMembers, keysDisjoint .nil ms = true
  | .nil => rfl
  | .cons k v tl => by
    rw [keysDisjoint, keysDisjoint_nil_left tl, keyMem]
    rfl

theorem memFold_disjoint :
    ∀ ms acc, keysDisjoint acc ms = true → jsonWFM ms = true →
      memFold acc ms = mAppend acc ms
  | .nil, acc, _, _ => by rw [memFold, mAppend_nil]
  | .cons k v tl, acc, hdisj, hwf => by
    rw [keysDisjoint, Bool.and_eq_true, Bool.not_eq_true'] at hdisj
    rw [jsonWFM, Bool.and_eq_true, Bool.and_eq_true, Bool.not_eq_true'] at hwf
    rw [memFold, insertKV_not_mem k v acc hdisj.1,
      memFold_disjoint tl (mAppend acc (.cons k v .nil))
        (by rw [keysDisjoint_mAppend, hdisj.2, keysDisjoint_single k v tl hwf.1.1]; rfl)
        hwf.2,
      mAppend_assoc]
    rfl

theorem memFold_wf (ms : JsonMembers) (hwf : jsonWFM ms = true) : memFold .nil ms = ms := by
  rw [memFold_disjoint ms .nil (keysDisjoint_nil_left ms) hwf]
  rfl

theorem find?_setEntry (k : String) (v : String) (e : Nat) :
    ∀ l : List Entry, (setEntry l k v e).find? (fun x => x.key == k) = some ⟨k, v, e⟩ := by
  intro l
  induction l with
  | nil => simp [setEntry, List.find?]
  | cons x xs ih =>
    rw [setEntry]
    by_cases hk : x.key = k
    · rw [if_pos hk, List.find?_cons_of_pos _ (by simp)]
    · rw [if_neg hk, List.find?_cons_of_neg _ (by simp [hk])]
      exact ih

theorem getEntry_setEntry (l : List Entry) (k v : String) (e now : Nat) :
    getEntry (setEntry l k v e) k now = if now < e then some v else none := by
  rw [getEntry, find?_setEntry]

/-! ## Round-trip lemmas: single parser steps -/

theorem pvJson_null (f : Nat) (r : List Char) :
    pvJson (f + 1) ('n' :: 'u' :: 'l' :: 'l' :: r) = some (.null, r) := rfl

theorem pvJson_true (f : Nat) (r : List Char) :
    pvJson (f + 1) ('t' :: 'r' :: 'u' :: 'e' :: r) = some (.bool true, r) := rfl

theorem pvJson_false (f : Nat) (r : List Char) :
    pvJson (f + 1) ('f' :: 'a' :: 'l' :: 's' :: 'e' :: r) = some (.bool false, r) := rfl

theorem pvJson_quote (f : Nat) (r : List Char) :
    pvJson (f + 1) ('"' :: r) =
      (match parseStrChars r with
       | some (cs2, r2) => some (.str (String.mk cs2), r2)
       | none => none) := rfl

theorem pvJson_arr_nil (f : Nat) (r : List Char) :
    pvJson (f + 1) ('[' :: ']' :: r) = some (.arr .nil, r) := rfl

theorem pvJson_obj_nil (f : Nat) (r : List Char) :
    pvJson (f + 1) ('\x7b' :: '\x7d' :: r) = some (.obj .nil, r) := rfl

theorem pvJson_obj_quote (f : Nat) (r : List Char) :
    pvJson (f + 1) ('\x7b' :: '"' :: r) =
      (match pmJson f ('"' :: r) with
       | some (ms, r3) => some (.obj (memFold .nil ms), r3)
       | none => none) := rfl

theorem pvJson_dash (f : Nat) (r : List Char) :
    pvJson (f + 1) ('-' :: r) =
      (match parseNatNum r with
       | some (n, r2) => some (.num (-(n : Int)), r2)
       | none => none) := rfl

theorem pmJson_quote (f : Nat) (r : List Char) :
    pmJson (f + 1) ('"' :: r) =
      (match parseStrChars r with
       | some (kcs, r1) =>
         (match skipWs r1 with
          | ':' :: r2 =>
            (match pvJson f (skipWs r2) with
             | some (v, r3) =>
               (match skipWs r3 with
                | ',' :: r4 =>
                  (match pmJson f (skipWs r4) with
                   | some (ms, r5) => some (.cons (String.mk kcs) v ms, r5)
                   | none => none)
                | '\x7d' :: r4 => some (.cons (String.mk kcs) v .nil, r4)
                | _ => none)
             | none => none)
          | _ => none)
       | none => none) := rfl

theorem plJson_step (f : Nat) (cs : List Char) (v : Json) (r : List Char)
    (h : pvJson f cs = some (v, r)) :
    plJson (f + 1) cs =
      (match skipWs r with
       | ',' :: r2 =>
         (match plJson f (skipWs r2) with
          | some (vs, r3) => some (.cons v vs, r3)
          | none => none)
       | ']' :: r2 => some (.cons v .nil, r2)
       | _ => none) := by
  rw [plJson, h]

set_option maxHeartbeats 1000000 in
theorem pvJson_digit (f : Nat) (c : Char) (hc : isDig c = true) (r : List Char) :
    pvJson (f + 1) (c :: r) =
      (match parseNatNum (c :: r) with
       | some (n, r2) => some (.num (n : Int), r2)
       | none => none) := by
  rw [pvJson, skipWs_nonWs c (isDig_head_facts c hc).1]
  split
  all_goals rename_i heq
  all_goals first
    | (exfalso
       simp only [List.cons.injEq] at heq
       obtain ⟨rfl, -⟩ := heq
       exact absurd hc (by decide))
    | (exact absurd heq (List.cons_ne_nil _ _))
    | (injection heq with h1 h2
       subst h1
       subst h2
       rw [if_pos hc])

set_option maxHeartbeats 1000000 in
theorem pvJson_arr_cons (f : Nat) (c : Char) (hw : isJWs c = false) (hc : ¬(c = ']'))
    (r : List Char) :
    pvJson (f + 1) ('[' :: c :: r) =
      (match plJson f (c :: r) with
       | some (xs, r3) => some (.arr xs, r3)
       | none => none) := by
  have h0 : pvJson (f + 1) ('[' :: c :: r) =
      (match skipWs (c :: r) with
       | ']' :: r2 => some (.arr .nil, r2)
       | r2 =>
         (match plJson f r2 with
          | some (xs, r3) => some (.arr xs, r3)
          | none => none)) := rfl
  rw [h0, skipWs_nonWs c hw]
  split
  · rename_i heq
    injection heq with h1 h2
    exact absurd h1 hc
  · rfl

/-! ## The round trip: json.loads of json.dumps -/

set_option maxHeartbeats 2000000 in
theorem parse_dumps_aux (itl ktl : List Char) (hiw : itl.all isJWs = true)
    (hkw : ktl.all isJWs = true) :
    ∀ fuel : Nat,
      (∀ v rest, jsonWF v = true → stopOK rest = true →
        (dumpsV (',' :: itl) (':' :: ktl) v).length ≤ fuel →
        pvJson fuel (dumpsV (',' :: itl) (':' :: ktl) v ++ rest) = some (v, rest)) ∧
      (∀ xs rest, xs.isNil = false → jsonWFL xs = true →
        (dumpsL (',' :: itl) (':' :: ktl) xs).length + 1 ≤ fuel →
        plJson fuel (dumpsL (',' :: itl) (':' :: ktl) xs ++ ']' :: rest) = some (xs, rest)) ∧
      (∀ ms rest, ms.isNil = false → jsonWFM ms = true →
        (dumpsM (',' :: itl) (':' :: ktl) ms).length + 1 ≤ fuel →
        pmJson fuel (dumpsM (',' :: itl) (':' :: ktl) ms ++ '\x7d' :: rest) = some (ms, rest)) := by
  intro fuel
  induction fuel with
  | zero =>
    refine ⟨?_, ?_, ?_⟩
    · intro v rest _ _ hlen
      obtain ⟨c, tl, he, -, -⟩ := dumpsV_shape _ _ v
      rw [he] at hlen
      simp at hlen
    · intro xs rest _ _ hlen
      omega
    · intro ms rest _ _ hlen
      omega
  | succ f ih =>
    obtain ⟨ihv, ihl, ihm⟩ := ih
    refine ⟨?_, ?_, ?_⟩
    · intro v rest hwf hstop hlen
      cases v with
      | null => exact pvJson_null f rest
      | bool b =>
        cases b
        · exact pvJson_false f rest
        · exact pvJson_true f rest
      | num i =>
        show pvJson (f + 1) (intChars i ++ rest) = some (.num i, rest)
        rw [intChars]
        by_cases hi : i < 0
        · rw [if_pos hi, List.cons_append, pvJson_dash]
          simp only [parseNatNum_natChars _ rest hstop]
          have hni : ((-i).toNat : Int) = -i := Int.toNat_of_nonneg (by omega)
          rw [hni, neg_neg]
        · rw [if_neg hi]
          obtain ⟨c, ctl, hce, hcd⟩ := natChars_shape i.toNat
          rw [hce, List.cons_append, pvJson_digit f c hcd, ← List.cons_append, ← hce]
          simp only [parseNatNum_natChars _ rest hstop]
          rw [Int.toNat_of_nonneg (by omega)]
      | str s =>
        show pvJson (f + 1) ('"' :: ((escList s.data ++ ['"']) ++ rest)) = some (.str s, rest)
        rw [List.append_assoc, List.singleton_append, pvJson_quote]
        simp only [parseStrChars_escList s.data rest]
      | arr xs =>
        cases xs with
        | nil => exact pvJson_arr_nil f rest
        | cons x tl =>
          rw [jsonWF] at hwf
          have hgoal : dumpsV (',' :: itl) (':' :: ktl) (.arr (.cons x tl)) ++ rest =
              '[' :: (dumpsL (',' :: itl) (':' :: ktl) (.cons x tl) ++ ']' :: rest) := by
            rw [dumpsV]
            simp [List.append_assoc]
          have hlen2 : (dumpsL (',' :: itl) (':' :: ktl) (.cons x tl)).length + 1 ≤ f := by
            have he : (dumpsV (',' :: itl) (':' :: ktl) (.arr (.cons x tl))).length =
                (dumpsL (',' :: itl) (':' :: ktl) (.cons x tl)).length + 2 := by
              rw [dumpsV]
              simp
            omega
          obtain ⟨c, ctl, hce, hcw, hcne⟩ := dumpsL_cons_shape (',' :: itl) (':' :: ktl) x tl
          rw [hgoal, hce, List.cons_append, pvJson_arr_cons f c hcw hcne,
            ← List.cons_append, ← hce]
          simp only [ihl (.cons x tl) rest rfl hwf hlen2]
      | obj kvs =>
        cases kvs with
        | nil => exact pvJson_obj_nil f rest
        | cons k v tl =>
          rw [jsonWF] at hwf
          have hgoal : dumpsV (',' :: itl) (':' :: ktl) (.obj (.cons k v tl)) ++ rest =
              '\x7b' :: (dumpsM (',' :: itl) (':' :: ktl) (.cons k v tl) ++ '\x7d' :: rest) := by
            rw [dumpsV]
            simp [List.append_assoc]
          have hlen2 : (dumpsM (',' :: itl) (':' :: ktl) (.cons k v tl)).length + 1 ≤ f := by
            have he : (dumpsV (',' :: itl) (':' :: ktl) (.obj (.cons k v tl))).length =
                (dumpsM (',' :: itl) (':' :: ktl) (.cons k v tl)).length + 2 := by
              rw [dumpsV]
              simp
            omega
          have hhead : ∃ mtl, dumpsM (',' :: itl) (':' :: ktl) (.cons k v tl) = '"' :: mtl := by
            cases tl with
            | nil => exact ⟨_, rfl⟩
            | cons k2 v2 tl2 => exact ⟨_, rfl⟩
          obtain ⟨mtl, hme⟩ := hhead
          rw [hgoal, hme, List.cons_append, pvJson_obj_quote, ← List.cons_append, ← hme]
          simp only [ihm (.cons k v tl) rest rfl hwf hlen2]
          rw [memFold_wf _ hwf]
    · intro xs rest hnn hwf hlen
      cases xs with
      | nil => simp [JsonList.isNil] at hnn
      | cons x tl =>
        rw [jsonWFL, Bool.and_eq_true] at hwf
        cases tl with
        | nil =>
          show plJson (f + 1)
            (dumpsV (',' :: itl) (':' :: ktl) x ++ ']' :: rest) = some (.cons x .nil, rest)
          rw [dumpsL] at hlen
          have hx := ihv x (']' :: rest) hwf.1 rfl (by omega)
          rw [plJson_step f _ x _ hx, skipWs_nonWs ']' (by decide)]
          rfl
        | cons y tl2 =>
          rw [dumpsL] at hlen ⊢
          simp only [List.length_append, List.length_cons] at hlen
          have hx1 : 1 ≤ (dumpsV (',' :: itl) (':' :: ktl) x).length := by
            obtain ⟨c, ctl, hce, -, -⟩ := dumpsV_shape (',' :: itl) (':' :: ktl) x
            rw [hce]
            simp
          rw [List.append_assoc, List.append_assoc, List.cons_append]
          have hvx := ihv x
            (',' :: (itl ++ (dumpsL (',' :: itl) (':' :: ktl) (.cons y tl2) ++ ']' :: rest)))
            hwf.1 rfl (by omega)
          rw [plJson_step f _ x _ hvx, skipWs_nonWs ',' (by decide)]
          show (match plJson f
              (skipWs (itl ++ (dumpsL (',' :: itl) (':' :: ktl) (.cons y tl2) ++ ']' :: rest)))
            with
            | some (vs, r3) => some (JsonList.cons x vs, r3)
            | none => none) = some (JsonList.cons x (JsonList.cons y tl2), rest)
          rw [skipWs_ws_append _ itl hiw]
          obtain ⟨c, ctl, hce, hcw, -⟩ := dumpsL_cons_shape (',' :: itl) (':' :: ktl) y tl2
          rw [hce, List.cons_append, skipWs_nonWs c hcw, ← List.cons_append, ← hce]
          simp only [ihl (.cons y tl2) rest rfl hwf.2 (by omega)]
    · intro ms rest hnn hwf hlen
      cases ms with
      | nil => simp [JsonMembers.isNil] at hnn
      | cons k v tl =>
        rw [jsonWFM, Bool.and_eq_true, Bool.and_eq_true] at hwf
        cases tl with
        | nil =>
          rw [dumpsM] at hlen ⊢
          simp only [List.length_append, List.length_cons] at hlen
          simp only [List.append_assoc, List.cons_append, List.singleton_append,
            List.nil_append]
          rw [pmJson_quote]
          simp only [parseStrChars_escList]
          rw [skipWs_nonWs ':' (by decide)]
          show (match pvJson f
              (skipWs (ktl ++ (dumpsV (',' :: itl) (':' :: ktl) v ++ '\x7d' :: rest)))
            with
            | some (v2, r3) =>
              (match skipWs r3 with
               | ',' :: r4 =>
                 (match pmJson f (skipWs r4) with
                  | some (ms2, r5) => some (JsonMembers.cons (String.mk k.data) v2 ms2, r5)
                  | none => none)
               | '\x7d' :: r4 => some (JsonMembers.cons (String.mk k.data) v2 JsonMembers.nil, r4)
               | _ => none)
            | none => none) = some (JsonMembers.cons k v JsonMembers.nil, rest)
          rw [skipWs_ws_append _ ktl hkw]
          obtain ⟨c, ctl, hce, hcw, -⟩ := dumpsV_shape (',' :: itl) (':' :: ktl) v
          rw [hce, List.cons_append, skipWs_nonWs c hcw, ← List.cons_append, ← hce]
          simp only [ihv v ('\x7d' :: rest) hwf.1.2 rfl (by omega)]
          rw [skipWs_nonWs '\x7d' (by decide)]
          rfl
        | cons k2 v2 tl2 =>
          rw [dumpsM] at hlen ⊢
          simp only [List.length_append, List.length_cons] at hlen
          have hm1 : 1 ≤ (dumpsM (',' :: itl) (':' :: ktl) (.cons k2 v2 tl2)).length := by
            cases tl2 with
            | nil => rw [dumpsM]; simp
            | cons k3 v3 tl3 => rw [dumpsM]; simp
          have hv1 : 1 ≤ (dumpsV (',' :: itl) (':' :: ktl) v).length := by
            obtain ⟨c, ctl, hce, -, -⟩ := dumpsV_shape (',' :: itl) (':' :: ktl) v
            rw [hce]
            simp
          simp only [List.append_assoc, List.cons_append, List.singleton_append,
            List.nil_append]
          rw [pmJson_quote]
          simp only [parseStrChars_escList]
          rw [skipWs_nonWs ':' (by decide)]
          show (match pvJson f
              (skipWs (ktl ++ (dumpsV (',' :: itl) (':' :: ktl) v ++ ',' ::
                (itl ++ (dumpsM (',' :: itl) (':' :: ktl) (.cons k2 v2 tl2) ++ '\x7d' :: rest)))))
            with
            | some (v3, r3) =>
              (match skipWs r3 with
               | ',' :: r4 =>
                 (match pmJson f (skipWs r4) with
                  | some (ms2, r5) => some (JsonMembers.cons (String.mk k.data) v3 ms2, r5)
                  | none => none)
               | '\x7d' :: r4 => some (JsonMembers.cons (String.mk k.data) v3 JsonMembers.nil, r4)
               | _ => none)
            | none => none) = some (JsonMembers.cons k v (JsonMembers.cons k2 v2 tl2), rest)
          rw [skipWs_ws_append _ ktl hkw]
          obtain ⟨c, ctl, hce, hcw, -⟩ := dumpsV_shape (',' :: itl) (':' :: ktl) v
          rw [hce, List.cons_append, skipWs_nonWs c hcw, ← List.cons_append, ← hce]
          simp only [ihv v
            (',' :: (itl ++ (dumpsM (',' :: itl) (':' :: ktl) (.cons k2 v2 tl2) ++
              '\x7d' :: rest)))
            hwf.1.2 rfl (by omega)]
          rw [skipWs_nonWs ',' (by decide)]
          show (match pmJson f
              (skipWs (itl ++ (dumpsM (',' :: itl) (':' :: ktl) (.cons k2 v2 tl2) ++
                '\x7d' :: rest)))
            with
            | some (ms2, r5) => some (JsonMembers.cons (String.mk k.data) v ms2, r5)
            | none => none) = some (JsonMembers.cons k v (JsonMembers.cons k2 v2 tl2), rest)
          rw [skipWs_ws_append _ itl hiw]
          obtain ⟨c2, ctl2, hce2, hcw2⟩ := (by
            cases tl2 with
            | nil => exact ⟨'"', _, rfl, by decide⟩
            | cons k3 v3 tl3 => exact ⟨'"', _, rfl, by decide⟩ :
            ∃ c2 ctl2, dumpsM (',' :: itl) (':' :: ktl) (.cons k2 v2 tl2) = c2 :: ctl2 ∧
              isJWs c2 = false)
          rw [hce2, List.cons_append, skipWs_nonWs c2 hcw2, ← List.cons_append, ← hce2]
          simp only [ihm (.cons k2 v2 tl2) rest rfl hwf.2 (by omega)]

/-- Parsing back the output of dumps (with any whitespace-padded separators)
recovers the value, as long as its object keys are duplicate-free. -/
theorem loads_dumps_sep (itl ktl : List Char) (hiw : itl.all isJWs = true)
    (hkw : ktl.all isJWs = true) (v : Json) (hwf : jsonWF v = true) :
    json_loads (String.mk (dumpsV (',' :: itl) (':' :: ktl) v)) = some v := by
  have h := (parse_dumps_aux itl ktl hiw hkw
      ((dumpsV (',' :: itl) (':' :: ktl) v).length + 1)).1 v [] hwf rfl (by omega)
  rw [List.append_nil] at h
  show (match pvJson ((dumpsV (',' :: itl) (':' :: ktl) v).length + 1)
      (dumpsV (',' :: itl) (':' :: ktl) v) with
    | some (v2, r) => if (skipWs r).isEmpty then some v2 else none
    | none => none) = some v
  rw [h]
  rfl

/-- json.loads inverts json.dumps with Python's default separators. -/
theorem json_loads_dumps_default (v : Json) (hwf : jsonWF v = true) :
    json_loads (json_dumps_default v) = some v :=
  loads_dumps_sep [' '] [' '] (by decide) (by decide) v hwf

/-- json.loads inverts json.dumps with compact separators. -/
theorem json_loads_dumps_compact (v : Json) (hwf : jsonWF v = true) :
    json_loads (json_dumps_compact v) = some v :=
  loads_dumps_sep [] [] (by decide) (by decide) v hwf

/-- The default-separator serialization is never the empty string. -/
theorem json_dumps_default_ne_empty (v : Json) : json_dumps_default v ≠ "" := by
  obtain ⟨c, tl, he, -, -⟩ := dumpsV_shape [',', ' '] [':', ' '] v
  rw [json_dumps_default, he]
  intro h
  exact absurd (congrArg String.data h) (by simp)

/-! ## C3: consecutive identical GET requests -/

/-- C3: three refutations of the claim as stated.  (a) A handler whose 200
body is "[1, 2]" (default-separator json) has it re-emitted on the second
request as the compact "[1,2]": served from cache (call_next not invoked)
but not byte-identical.  (b) A 200 body "[]" is cached, but the stored
empty array is falsy, so the second request invokes the handler again.
(c) A 201 response is a success yet is never cached (only status == 200
is), so the second request also invokes the handler. -/
theorem C3_counterexample :
    ((cache_middleware (.up ⟨[]⟩) 0 (fun _ => ⟨200, "[1, 2]"⟩)
        ⟨"GET", "/api/forms", ""⟩).1.body = "[1, 2]" ∧
     (cache_middleware
        (cache_middleware (.up ⟨[]⟩) 0 (fun _ => ⟨200, "[1, 2]"⟩)
          ⟨"GET", "/api/forms", ""⟩).2.1
        1 (fun _ => ⟨200, "[1, 2]"⟩) ⟨"GET", "/api/forms", ""⟩).1.body = "[1,2]" ∧
     (cache_middleware
        (cache_middleware (.up ⟨[]⟩) 0 (fun _ => ⟨200, "[1, 2]"⟩)
          ⟨"GET", "/api/forms", ""⟩).2.1
        1 (fun _ => ⟨200, "[1, 2]"⟩) ⟨"GET", "/api/forms", ""⟩).2.2 = false) ∧
    ((cache_middleware
        (cache_middleware (.up ⟨[]⟩) 0 (fun _ => ⟨200, "[]"⟩)
          ⟨"GET", "/api/forms", ""⟩).2.1
        1 (fun _ => ⟨200, "[]"⟩) ⟨"GET", "/api/forms", ""⟩).2.2 = true) ∧
    ((cache_middleware
        (cache_middleware (.up ⟨[]⟩) 0 (fun _ => ⟨201, "[1]"⟩)
          ⟨"GET", "/api/forms", ""⟩).2.1
        1 (fun _ => ⟨201, "[1]"⟩) ⟨"GET", "/api/forms", ""⟩).2.2 = true) :=
  ⟨⟨rfl, rfl, rfl⟩, rfl, rfl⟩

/-- C3 (amended): for an api GET whose handler answers 200 with the compact
serialization of a truthy, duplicate-key-free document, a first request
that misses the cache invokes the handler, returns its response and stores
the default-separator serialization under the request's key for 3600
seconds; an identical second request before expiry returns the byte-identical
response without invoking the handler and leaves the store unchanged. -/
theorem C3_consecutive_get (st : RedisState) (now1 now2 : Nat) (req : Request)
    (h : Request → Response) (v : Json)
    (hm : req.method = "GET") (hap : leadsWith "/api/" req.path = true)
    (hh : h req = ⟨200, json_dumps_compact v⟩)
    (hwf : jsonWF v = true) (htr : truthy v = true)
    (hmiss : cache_get (.up st) now1 (cacheKeyOf req) = none)
    (hexp : now2 < now1 + 3600) :
    cache_middleware (.up st) now1 h req =
      (⟨200, json_dumps_compact v⟩,
       .up ⟨setEntry st.entries (cacheKeyOf req) (json_dumps_default v) (now1 + 3600)⟩,
       true) ∧
    cache_middleware
        (.up ⟨setEntry st.entries (cacheKeyOf req) (json_dumps_default v) (now1 + 3600)⟩)
        now2 h req =
      (⟨200, json_dumps_compact v⟩,
       .up ⟨setEntry st.entries (cacheKeyOf req) (json_dumps_default v) (now1 + 3600)⟩,
       false) := by
  constructor
  · rw [cache_middleware]
    simp only [hm, hap, hmiss, hh, json_loads_dumps_compact v hwf, cache_set]
    simp
  · have hget : cache_get
        (.up ⟨setEntry st.entries (cacheKeyOf req) (json_dumps_default v) (now1 + 3600)⟩)
        now2 (cacheKeyOf req) = some v := by
      show (match getEntry
          (setEntry st.entries (cacheKeyOf req) (json_dumps_default v) (now1 + 3600))
          (cacheKeyOf req) now2 with
        | some data => if data = "" then none else json_loads data
        | none => none) = some v
      rw [getEntry_setEntry, if_pos hexp]
      show (if json_dumps_default v = "" then none else json_loads (json_dumps_default v))
        = some v
      rw [if_neg (json_dumps_default_ne_empty v), json_loads_dumps_default v hwf]
    rw [cache_middleware]
    simp only [hm, hap, hget, htr, JSONResponseOf]
    simp

/-- C3 witness: the amended theorem at a concrete instant, store, request,
document and handler. -/
theorem C3_consecutive_get_witness :
    cache_middleware (.up ⟨[]⟩) 0
        (fun _ => ⟨200, json_dumps_compact (.arr (.cons (.num 1) .nil))⟩)
        ⟨"GET", "/api/forms", ""⟩ =
      (⟨200, json_dumps_compact (.arr (.cons (.num 1) .nil))⟩,
       .up ⟨setEntry [] (cacheKeyOf ⟨"GET", "/api/forms", ""⟩)
         (json_dumps_default (.arr (.cons (.num 1) .nil))) (0 + 3600)⟩,
       true) ∧
    cache_middleware
        (.up ⟨setEntry [] (cacheKeyOf ⟨"GET", "/api/forms", ""⟩)
          (json_dumps_default (.arr (.cons (.num 1) .nil))) (0 + 3600)⟩)
        1
        (fun _ => ⟨200, json_dumps_compact (.arr (.cons (.num 1) .nil))⟩)
        ⟨"GET", "/api/forms", ""⟩ =
      (⟨200, json_dumps_compact (.arr (.cons (.num 1) .nil))⟩,
       .up ⟨setEntry [] (cacheKeyOf ⟨"GET", "/api/forms", ""⟩)
         (json_dumps_default (.arr (.cons (.num 1) .nil))) (0 + 3600)⟩,
       false) :=
  C3_consecutive_get ⟨[]⟩ 0 1 ⟨"GET", "/api/forms", ""⟩ _ (.arr (.cons (.num 1) .nil))
    rfl (by decide) rfl (by decide) (by decide) rfl (by decide)
